import Mathlib

/-!
# boundaryPoint: resolution of a smoothed point on a boundary facet fan

Shallow embedding of `blockMeshSmoother/pointTopology/boundaryPointTopology/boundaryPoint.cpp`.

Modelling conventions.

* `scalar` is exact rational arithmetic.
* `std::set<label>` is the ascending list of its elements, as an iterator visits them;
  `std::set<std::set<label>>` is the list of its triangles in iteration order.
* `std::map<scalar, V>` is the list of its entries in ascending key order; `insert`
  keeps the entry already present when the key exists.
* The source keys its maps by `mag(a - b)`, the Euclidean norm.  The embedding keys
  them by `magSqr(a - b)`, the squared norm: the square root is strictly increasing on
  the non-negative numbers, so both keys order the entries identically, agree on which
  keys are equal, and `distCenter < dist.begin()->first` has the same truth value.
* `blockMeshTopology` is not part of the translated file; its two lookups used here are
  fields of a structure, and a lookup of an unknown label is an error.
* A member function that mutates `trianglesNew_` returns the updated object next to its
  result.  The recursion of `getBoundaryPoint` is indexed by a fuel counter.
-/

namespace Foam

/-- Vertex label (`Foam::label`). -/
abbrev label := Int

/-- Floating point number of the source (`Foam::scalar`), here exact. -/
abbrev scalar := ℚ

/-- Three-dimensional point or vector (`Foam::point`). -/
@[ext]
structure point where
  x : scalar
  y : scalar
  z : scalar
deriving DecidableEq

namespace point

/-- Vector difference `a - b`. -/
def sub (a b : point) : point := ⟨a.x - b.x, a.y - b.y, a.z - b.z⟩

/-- Vector sum `a + b`. -/
def add (a b : point) : point := ⟨a.x + b.x, a.y + b.y, a.z + b.z⟩

/-- Scaling `s*a`. -/
def smul (s : scalar) (a : point) : point := ⟨s * a.x, s * a.y, s * a.z⟩

/-- Cross product `a ^ b`. -/
def cross (a b : point) : point :=
  ⟨a.y * b.z - a.z * b.y, a.z * b.x - a.x * b.z, a.x * b.y - a.y * b.x⟩

/-- Inner product `a & b`. -/
def dot (a b : point) : scalar := a.x * b.x + a.y * b.y + a.z * b.z

end point

/-- Absolute value `fabs`. -/
def fabs (a : scalar) : scalar := if a < 0 then -a else a

/-- Squared Euclidean norm; stands for `mag`, see the conventions above. -/
def magSqr (a : point) : scalar := point.dot a a

/-- Ways in which a call does not return normally. -/
inductive Err where
  /-- `FatalErrorIn(fn) << msg << exit(FatalError)` -/
  | fatalError (fn : String) (msg : String)
  /-- Lookup of a label the directory does not know. -/
  | unknownLabel (l : label)
  /-- Dereference of `begin()` or `rbegin()` of an empty container. -/
  | emptyDeref
  /-- The recursion budget of the embedding is used up. -/
  | outOfFuel
deriving DecidableEq

/-- Entries of a `std::set<label>` in ascending order. -/
abbrev labelSet := List label

/-- Entries of a `std::set<std::set<label>>` in iteration order. -/
abbrev triangleSet := List labelSet

/-- Data members of `boundaryPoint`. -/
structure boundaryPoint where
  triangles_ : triangleSet
  trianglesNew_ : triangleSet
  initialPoint_ : point
deriving DecidableEq

/-- The part of `blockMeshTopology` used by `boundaryPoint`. -/
structure blockMeshTopology where
  getBoundaryPointCoord : label → Option point
  getPointTopoPtr : label → Option boundaryPoint

/-- Constructor `boundaryPoint(triangles, initialPoint, topo)`. -/
def boundaryPoint.new (triangles : triangleSet) (initialPoint : point) : boundaryPoint :=
  { triangles_ := triangles, trianglesNew_ := triangles, initialPoint_ := initialPoint }

/-- Accessor `getTrianglesLinked()`. -/
def boundaryPoint.getTrianglesLinked (self : boundaryPoint) : triangleSet := self.triangles_

/-- Accessor `getboundaryPoint()`. -/
def boundaryPoint.getboundaryPoint (self : boundaryPoint) : point := self.initialPoint_

/-- Call `topo_->getBoundaryPointCoord(l)`. -/
def coordOf (topo : blockMeshTopology) (l : label) : Except Err point :=
  match topo.getBoundaryPointCoord l with
  | some c => .ok c
  | none => .error (.unknownLabel l)

/-- Call `topo_->getPointTopoPtr(l)->getTrianglesLinked()`. -/
def trianglesOf (topo : blockMeshTopology) (l : label) : Except Err triangleSet :=
  match topo.getPointTopoPtr l with
  | some b => .ok b.getTrianglesLinked
  | none => .error (.unknownLabel l)

/-- Body of `isOnTriangle` once the three coordinates are known.  When `n & n` is zero
the vector `n` is zero, both numerators are zero, and both quotients are `0/0`: a NaN,
which fails every comparison of the condition, so the function returns false. -/
def isOnTriangleAt (p1 p2 p3 p : point) : Option point :=
  let u := point.sub p2 p1
  let v := point.sub p3 p1
  let n := point.cross u v
  let w := point.sub p p1
  if point.dot n n = 0 then none
  else
    let lambda := fabs (point.dot (point.cross u w) n) / point.dot n n
    let beta := fabs (point.dot (point.cross w v) n) / point.dot n n
    let alpha := 1 - lambda - beta
    if 0 ≤ alpha ∧ alpha ≤ 1 ∧ 0 ≤ lambda ∧ lambda ≤ 1 ∧ 0 ≤ beta ∧ beta ≤ 1 then
      some (point.add (point.add (point.smul alpha p1) (point.smul beta p2)) (point.smul lambda p3))
    else none

/-- Function `isOnTriangle(refP2, refP3, p, out, ref)`: `some out` for true. -/
def isOnTriangle (topo : blockMeshTopology) (refP2 refP3 : label) (p : point) (ref : label) :
    Except Err (Option point) := do
  let p1 ← coordOf topo ref
  let p2 ← coordOf topo refP2
  let p3 ← coordOf topo refP3
  pure (isOnTriangleAt p1 p2 p3 p)

/-- Member `std::set<label>::insert`. -/
def setInsert (a : label) : labelSet → labelSet
  | [] => [a]
  | b :: bs =>
    if a < b then a :: b :: bs
    else if a = b then b :: bs
    else b :: setInsert a bs

/-- Member `std::map<scalar, V>::insert`: an existing key keeps its entry. -/
def mapInsert {V : Type} (k : scalar) (v : V) : List (scalar × V) → List (scalar × V)
  | [] => [(k, v)]
  | e :: es =>
    if k < e.1 then (k, v) :: e :: es
    else if k = e.1 then e :: es
    else e :: mapInsert k v es

/-- Dereference of an iterator that may be `end()`. -/
def deref {α : Type} : Option α → Except Err α
  | some a => .ok a
  | none => .error .emptyDeref

/-- One projection test of the facet search: `isOnTriangle(*tri.begin(), *tri.rbegin(),
guessedPoint, pt, pointRef)`. -/
def testTriangle (topo : blockMeshTopology) (guessedPoint : point) (pointRef : label)
    (tri : labelSet) : Except Err (Option point) := do
  let b ← deref tri.head?
  let e ← deref tri.getLast?
  isOnTriangle topo b e guessedPoint pointRef

/-- Loop of `mapBoundaryFeaturePts` over the remaining triangles. -/
def mapBoundaryFeaturePtsLoop (topo : blockMeshTopology) (guessedPoint : point)
    (pointRef : label) : triangleSet → List (scalar × point) → Except Err (List (scalar × point))
  | [], minDist => .ok minDist
  | tri :: rest, minDist =>
    match testTriangle topo guessedPoint pointRef tri with
    | .error e => .error e
    | .ok (some pt) =>
      mapBoundaryFeaturePtsLoop topo guessedPoint pointRef rest
        (mapInsert (magSqr (point.sub guessedPoint pt)) pt minDist)
    | .ok none => mapBoundaryFeaturePtsLoop topo guessedPoint pointRef rest minDist

/-- Function `mapBoundaryFeaturePts(guessedPoint, pointRef)`. -/
def mapBoundaryFeaturePts (topo : blockMeshTopology) (self : boundaryPoint)
    (guessedPoint : point) (pointRef : label) : Except Err (List (scalar × point)) :=
  mapBoundaryFeaturePtsLoop topo guessedPoint pointRef self.trianglesNew_ []

/-- The set `extremPoint`: every label of every triangle of `trianglesNew_`. -/
def extremPoint (tris : triangleSet) : labelSet :=
  tris.foldl (fun acc tri => tri.foldl (fun acc2 pt => setInsert pt acc2) acc) []

/-- Loop filling the map `dist` over the remaining labels of `extremPoint`. -/
def distLoop (topo : blockMeshTopology) (guessedPoint : point) :
    labelSet → List (scalar × label) → Except Err (List (scalar × label))
  | [], dist => .ok dist
  | l :: ls, dist =>
    match coordOf topo l with
    | .error e => .error e
    | .ok c => distLoop topo guessedPoint ls (mapInsert (magSqr (point.sub guessedPoint c)) l dist)

/-- Function `changeBoundaryPointLinkedFaces(newRef, guessedPoint)`; `recurse` is the
call back into `getBoundaryPoint`. -/
def changeBoundaryPointLinkedFaces
    (recurse : boundaryPoint → point → label → Except Err (point × boundaryPoint))
    (topo : blockMeshTopology) (self : boundaryPoint) (newRef : label) (guessedPoint : point) :
    Except Err (point × boundaryPoint) :=
  match trianglesOf topo newRef with
  | .error e => .error e
  | .ok tris => recurse { self with trianglesNew_ := tris } guessedPoint newRef

/-- Function `getBoundaryPoint(guessedPoint, ref)`. -/
def getBoundaryPoint : Nat → blockMeshTopology → boundaryPoint → point → label →
    Except Err (point × boundaryPoint)
  | 0, _, _, _, _ => .error .outOfFuel
  | fuel + 1, topo, self, guessedPoint, ref =>
    match mapBoundaryFeaturePts topo self guessedPoint ref with
    | .error e => .error e
    | .ok (hit :: _) => .ok (hit.2, self)
    | .ok [] =>
      match coordOf topo ref with
      | .error e => .error e
      | .ok c =>
        let distCenter := magSqr (point.sub guessedPoint c)
        match distLoop topo guessedPoint (extremPoint self.trianglesNew_) [] with
        | .error e => .error e
        | .ok [] => .error .emptyDeref
        | .ok (first :: _) =>
          if distCenter < first.1 then .ok (c, self)
          else
            changeBoundaryPointLinkedFaces (getBoundaryPoint fuel topo) topo self first.2
              guessedPoint

/-- Function `smoothedPoint(guessedPoint, pointRef)`. -/
def smoothedPoint (fuel : Nat) (topo : blockMeshTopology) (self : boundaryPoint)
    (guessedPoint : point) (pointRef : label) : Except Err (point × boundaryPoint) :=
  getBoundaryPoint fuel topo self guessedPoint pointRef

/-- Function `getFeatureEdgePoint(guessedPoint, ref)`. -/
def getFeatureEdgePoint (_self : boundaryPoint) (_guessedPoint : point) (_ref : label) :
    Except Err (point × boundaryPoint) :=
  .error (.fatalError "getFeatureEdgePoint(guessedPoint, ref)" "Error no feature edge point\n")

/-- Function `mapNeiborFeaturePts(guessedPoint, pointRef)`. -/
def mapNeiborFeaturePts (_self : boundaryPoint) (_guessedPoint : point) (_pointRef : label) :
    Except Err (List (scalar × point)) :=
  .error (.fatalError "mapNeiborFeaturePts(guessedPoint, ref)" "Not a feature point\n")

/-- Function `changeFeatureEdgeLinkedsPoint(newRef, guessedPoint)`. -/
def changeFeatureEdgeLinkedsPoint (_self : boundaryPoint) (_newRef : label)
    (_guessedPoint : point) : Except Err (point × boundaryPoint) :=
  .error (.fatalError "changeFeatureEdgeLinkedsPoint(guessedPoint, ref)"
    "Accessed from a non feature edge point\n")

/-- The two labels that `mapBoundaryFeaturePts` passes to `isOnTriangle` as `refP2` and
`refP3` for a triangle: `*(*triI).begin()` and `*(*triI).rbegin()`. -/
def testLabels (tri : labelSet) : Except Err (label × label) := do
  let b ← deref tri.head?
  let e ← deref tri.getLast?
  pure (b, e)

/-- Successive `insert` of the entries `kvs` into the map `m`. -/
def insertAll {V : Type} (kvs : List (scalar × V)) (m : List (scalar × V)) : List (scalar × V) :=
  kvs.foldl (fun acc e => mapInsert e.1 e.2 acc) m

/-- Entries the facet search inserts into `minDist`: one for each triangle whose
projection test succeeds, in iteration order. -/
def hitList (topo : blockMeshTopology) (guessedPoint : point) (pointRef : label)
    (tris : triangleSet) : List (scalar × point) :=
  tris.filterMap (fun tri =>
    match testTriangle topo guessedPoint pointRef tri with
    | .ok (some pt) => some (magSqr (point.sub guessedPoint pt), pt)
    | _ => none)

/-- Entries the label loop inserts into `dist`: one for each label, in iteration order. -/
def labelDistList (topo : blockMeshTopology) (guessedPoint : point) (ls : labelSet) :
    List (scalar × label) :=
  ls.filterMap (fun l =>
    match topo.getBoundaryPointCoord l with
    | some c => some (magSqr (point.sub guessedPoint c), l)
    | none => none)

/-- A sequence of calls of `smoothedPoint` on one object, each with the directory of its
pass, its guess and its label; the result is the object after the last call. -/
def smoothedPointSeq (fuel : Nat) :
    boundaryPoint → List (blockMeshTopology × point × label) → Except Err boundaryPoint
  | self, [] => .ok self
  | self, call :: rest =>
    match smoothedPoint fuel call.1 self call.2.1 call.2.2 with
    | .error e => .error e
    | .ok r => smoothedPointSeq fuel r.2 rest

/-! ## Notions of the specification -/

/-- The triangle is non-degenerate: its normal `(p2 - p1) ^ (p3 - p1)` is not zero. -/
def nonDegenerate (p1 p2 p3 : point) : Prop :=
  point.cross (point.sub p2 p1) (point.sub p3 p1) ≠ ⟨0, 0, 0⟩

/-- The point `a*p1 + b*p2 + c*p3`. -/
def combination (a b c : scalar) (p1 p2 p3 : point) : point :=
  point.add (point.add (point.smul a p1) (point.smul b p2)) (point.smul c p3)

/-- The point `q` lies on the closed triangle: it is a convex combination of the corners. -/
def onTriangle (p1 p2 p3 q : point) : Prop :=
  ∃ a b c : scalar, 0 ≤ a ∧ 0 ≤ b ∧ 0 ≤ c ∧ a + b + c = 1 ∧ q = combination a b c p1 p2 p3

/-- The point `p1 + b*(p2 - p1) + c*(p3 - p1)` of the plane of the triangle. -/
def planePoint (p1 p2 p3 : point) (b c : scalar) : point :=
  point.add p1 (point.add (point.smul b (point.sub p2 p1)) (point.smul c (point.sub p3 p1)))

/-- The point `q` is the orthogonal projection of `p` onto the plane of the triangle, with
coordinates `b` and `c` along the edge vectors: `q` is in the plane and `p - q` is
orthogonal to both edge vectors. -/
def isProjection (p1 p2 p3 p q : point) (b c : scalar) : Prop :=
  q = planePoint p1 p2 p3 b c ∧
  point.dot (point.sub p q) (point.sub p2 p1) = 0 ∧
  point.dot (point.sub p q) (point.sub p3 p1) = 0

/-- Every triangle of the set has a first and a last label and the directory knows the
coordinate of each of its labels. -/
def knownLabels (topo : blockMeshTopology) (tris : triangleSet) : Prop :=
  ∀ tri ∈ tris, tri ≠ [] ∧ ∀ l ∈ tri, (topo.getBoundaryPointCoord l).isSome = true

/-- Every label of the triangle set is known to the directory: it has a coordinate and an
object. -/
def labelsKnown (topo : blockMeshTopology) (tris : triangleSet) : Prop :=
  ∀ tri ∈ tris, ∀ l ∈ tri,
    (topo.getBoundaryPointCoord l).isSome = true ∧ (topo.getPointTopoPtr l).isSome = true

/-- Every object of the directory has a non-empty triangle set whose triangles are
non-empty and whose labels are known to the directory. -/
def directoryClosed (topo : blockMeshTopology) : Prop :=
  ∀ l nb, topo.getPointTopoPtr l = some nb →
    nb.getTrianglesLinked ≠ [] ∧ (∀ tri ∈ nb.getTrianglesLinked, tri ≠ []) ∧
      labelsKnown topo nb.getTrianglesLinked

/-! ## Example data -/

deriving instance DecidableEq for Except

/-- Coordinates of a mesh of one right triangle with the labels 0, 1, 2 and its right
angle at label 1. -/
def cornerCoord : label → Option point
  | 0 => some ⟨1, 0, 0⟩
  | 1 => some ⟨0, 0, 0⟩
  | 2 => some ⟨0, 1, 0⟩
  | _ => none

/-- The object of vertex 1 of the one-triangle mesh, as constructed. -/
def cornerPoint : boundaryPoint := boundaryPoint.new [[0, 1, 2]] ⟨0, 0, 0⟩

/-- Directory of the one-triangle mesh: every vertex owns the triangle {0, 1, 2}. -/
def cornerTopo : blockMeshTopology where
  getBoundaryPointCoord := cornerCoord
  getPointTopoPtr := fun l =>
    match cornerCoord l with
    | some c => some (boundaryPoint.new [[0, 1, 2]] c)
    | none => none

/-- Coordinates of a vertex 1 above the triangle {3, 4, 5}. -/
def apexCoord : label → Option point
  | 1 => some ⟨0, 0, 1⟩
  | 3 => some ⟨0, 0, 0⟩
  | 4 => some ⟨1, 0, 0⟩
  | 5 => some ⟨0, 1, 0⟩
  | _ => none

/-- Directory in which the vertices 3, 4 and 5 own the triangle {3, 4, 5}. -/
def apexTopo : blockMeshTopology where
  getBoundaryPointCoord := apexCoord
  getPointTopoPtr := fun l =>
    match apexCoord l with
    | some c => some (boundaryPoint.new [[3, 4, 5]] c)
    | none => none

/-- An object whose active triangles are those of vertex 4. -/
def apexPoint : boundaryPoint :=
  { triangles_ := [[3, 4, 5]], trianglesNew_ := [[3, 4, 5]], initialPoint_ := ⟨0, 0, 1⟩ }

/-- Coordinates of two right triangles {0, 1, 2} and {0, 1, 3} that meet at a right angle
along the edge from 1 to 0. -/
def edgeCoord : label → Option point
  | 0 => some ⟨1, 0, 0⟩
  | 1 => some ⟨0, 0, 0⟩
  | 2 => some ⟨0, 1, 0⟩
  | 3 => some ⟨0, 0, 1⟩
  | _ => none

/-- The object of vertex 1 of the two-triangle mesh, as constructed. -/
def edgePoint : boundaryPoint := boundaryPoint.new [[0, 1, 2], [0, 1, 3]] ⟨0, 0, 0⟩

/-- Directory of the two-triangle mesh. -/
def edgeTopo : blockMeshTopology where
  getBoundaryPointCoord := edgeCoord
  getPointTopoPtr := fun l =>
    match l with
    | 0 => some (boundaryPoint.new [[0, 1, 2], [0, 1, 3]] ⟨1, 0, 0⟩)
    | 1 => some edgePoint
    | 2 => some (boundaryPoint.new [[0, 1, 2]] ⟨0, 1, 0⟩)
    | 3 => some (boundaryPoint.new [[0, 1, 3]] ⟨0, 0, 1⟩)
    | _ => none

/-- Coordinates of two triangles {1, 2, 3} and {1, 3, 4} that meet at a right angle along
the edge from 1 to 3. -/
def ridgeCoord : label → Option point
  | 1 => some ⟨1, 0, 0⟩
  | 2 => some ⟨0, 0, 0⟩
  | 3 => some ⟨0, 1, 0⟩
  | 4 => some ⟨0, 1, 1⟩
  | _ => none

/-- Objects of the directory of the ridge: vertex 2 owns {1, 2, 3}, vertex 3 owns
{1, 3, 4}. -/
def ridgePtr : label → Option boundaryPoint
  | 2 => some (boundaryPoint.new [[1, 2, 3]] ⟨0, 0, 0⟩)
  | 3 => some (boundaryPoint.new [[1, 3, 4]] ⟨0, 1, 0⟩)
  | _ => none

/-- Directory of the ridge. -/
def ridgeTopo : blockMeshTopology where
  getBoundaryPointCoord := ridgeCoord
  getPointTopoPtr := ridgePtr

/-- Two calls on the object of vertex 2 of the ridge: the first re-homes to vertex 3, the
second projects onto the triangle tested in the re-homed state. -/
def ridgeCalls : List (blockMeshTopology × point × label) :=
  [(ridgeTopo, ⟨1/4, 1, 1/2⟩, 2), (ridgeTopo, ⟨1/4, 1/4, 1/4⟩, 2)]

/-- Coordinates of the flat square patch with the corners 0 to 3, split into the triangles
{0, 1, 2} and {0, 2, 3}. -/
def squareCoord : label → Option point
  | 0 => some ⟨0, 0, 0⟩
  | 1 => some ⟨1, 0, 0⟩
  | 2 => some ⟨1, 1, 0⟩
  | 3 => some ⟨0, 1, 0⟩
  | _ => none

/-- Objects of the square patch: every vertex owns the triangles it is a corner of. -/
def squarePtr : label → Option boundaryPoint
  | 0 => some (boundaryPoint.new [[0, 1, 2], [0, 2, 3]] ⟨0, 0, 0⟩)
  | 1 => some (boundaryPoint.new [[0, 1, 2]] ⟨1, 0, 0⟩)
  | 2 => some (boundaryPoint.new [[0, 1, 2], [0, 2, 3]] ⟨1, 1, 0⟩)
  | 3 => some (boundaryPoint.new [[0, 2, 3]] ⟨0, 1, 0⟩)
  | _ => none

/-- Directory of the square patch. -/
def squareTopo : blockMeshTopology where
  getBoundaryPointCoord := squareCoord
  getPointTopoPtr := squarePtr

/-- The object of vertex 0 of the square patch, as constructed. -/
def squarePoint : boundaryPoint := boundaryPoint.new [[0, 1, 2], [0, 2, 3]] ⟨0, 0, 0⟩

/-! ## Geometry of the projection test -/

theorem fabs_eq_abs (a : scalar) : fabs a = |a| := by
  unfold fabs
  split_ifs with h
  · exact (abs_of_neg h).symm
  · exact (abs_of_nonneg (not_lt.mp h)).symm

theorem dot_self_eq_zero (n : point) : point.dot n n = 0 ↔ n = ⟨0, 0, 0⟩ := by
  constructor
  · intro h
    simp only [point.dot] at h
    have hx : n.x = 0 := by nlinarith [sq_nonneg n.x, sq_nonneg n.y, sq_nonneg n.z]
    have hy : n.y = 0 := by nlinarith [sq_nonneg n.x, sq_nonneg n.y, sq_nonneg n.z]
    have hz : n.z = 0 := by nlinarith [sq_nonneg n.x, sq_nonneg n.y, sq_nonneg n.z]
    ext <;> assumption
  · rintro rfl
    simp [point.dot]

theorem dot_self_pos_of_nonDegenerate {p1 p2 p3 : point} (h : nonDegenerate p1 p2 p3) :
    0 < point.dot (point.cross (point.sub p2 p1) (point.sub p3 p1))
      (point.cross (point.sub p2 p1) (point.sub p3 p1)) := by
  have h0 : point.dot (point.cross (point.sub p2 p1) (point.sub p3 p1))
      (point.cross (point.sub p2 p1) (point.sub p3 p1)) ≠ 0 :=
    fun h0 => h ((dot_self_eq_zero _).mp h0)
  have h1 : 0 ≤ point.dot (point.cross (point.sub p2 p1) (point.sub p3 p1))
      (point.cross (point.sub p2 p1) (point.sub p3 p1)) := by
    simp only [point.dot]
    have hx := mul_self_nonneg (point.cross (point.sub p2 p1) (point.sub p3 p1)).x
    have hy := mul_self_nonneg (point.cross (point.sub p2 p1) (point.sub p3 p1)).y
    have hz := mul_self_nonneg (point.cross (point.sub p2 p1) (point.sub p3 p1)).z
    linarith
  exact lt_of_le_of_ne h1 (Ne.symm h0)

/-- Value of the projection test in terms of the coordinates `b`, `c` that the two triple
products compute. -/
theorem isOnTriangleAt_of_coords (p1 p2 p3 p : point) (b c : scalar)
    (hnd : nonDegenerate p1 p2 p3)
    (hc : point.dot (point.cross (point.sub p2 p1) (point.sub p p1))
        (point.cross (point.sub p2 p1) (point.sub p3 p1)) =
      c * point.dot (point.cross (point.sub p2 p1) (point.sub p3 p1))
        (point.cross (point.sub p2 p1) (point.sub p3 p1)))
    (hb : point.dot (point.cross (point.sub p p1) (point.sub p3 p1))
        (point.cross (point.sub p2 p1) (point.sub p3 p1)) =
      b * point.dot (point.cross (point.sub p2 p1) (point.sub p3 p1))
        (point.cross (point.sub p2 p1) (point.sub p3 p1))) :
    isOnTriangleAt p1 p2 p3 p =
      if |b| + |c| ≤ 1 then some (combination (1 - |c| - |b|) |b| |c| p1 p2 p3) else none := by
  have hpos := dot_self_pos_of_nonDegenerate hnd
  have hne := ne_of_gt hpos
  have hl : fabs (point.dot (point.cross (point.sub p2 p1) (point.sub p p1))
        (point.cross (point.sub p2 p1) (point.sub p3 p1))) /
      point.dot (point.cross (point.sub p2 p1) (point.sub p3 p1))
        (point.cross (point.sub p2 p1) (point.sub p3 p1)) = |c| := by
    rw [hc, fabs_eq_abs, abs_mul, abs_of_pos hpos, mul_div_assoc, div_self hne, mul_one]
  have hbe : fabs (point.dot (point.cross (point.sub p p1) (point.sub p3 p1))
        (point.cross (point.sub p2 p1) (point.sub p3 p1))) /
      point.dot (point.cross (point.sub p2 p1) (point.sub p3 p1))
        (point.cross (point.sub p2 p1) (point.sub p3 p1)) = |b| := by
    rw [hb, fabs_eq_abs, abs_mul, abs_of_pos hpos, mul_div_assoc, div_self hne, mul_one]
  simp only [isOnTriangleAt, hl, hbe, if_neg hne, combination]
  have hb0 := abs_nonneg b
  have hc0 := abs_nonneg c
  by_cases h : |b| + |c| ≤ 1
  · rw [if_pos h, if_pos]
    refine ⟨by linarith, by linarith, hc0, by linarith, hb0, by linarith⟩
  · rw [if_neg h, if_neg]
    rintro ⟨h1, -⟩
    exact h (by linarith)

/-- The triple products of `isOnTriangle` compute the coordinates of the orthogonal
projection along the edge vectors. -/
theorem coords_of_isProjection {p1 p2 p3 p q : point} {b c : scalar}
    (h : isProjection p1 p2 p3 p q b c) :
    point.dot (point.cross (point.sub p2 p1) (point.sub p p1))
        (point.cross (point.sub p2 p1) (point.sub p3 p1)) =
      c * point.dot (point.cross (point.sub p2 p1) (point.sub p3 p1))
        (point.cross (point.sub p2 p1) (point.sub p3 p1)) ∧
    point.dot (point.cross (point.sub p p1) (point.sub p3 p1))
        (point.cross (point.sub p2 p1) (point.sub p3 p1)) =
      b * point.dot (point.cross (point.sub p2 p1) (point.sub p3 p1))
        (point.cross (point.sub p2 p1) (point.sub p3 p1)) := by
  obtain ⟨rfl, hu, hv⟩ := h
  simp only [point.dot, point.cross, point.sub, point.add, point.smul, planePoint] at hu hv ⊢
  constructor
  · linear_combination
      ((p2.x - p1.x) * (p2.x - p1.x) + (p2.y - p1.y) * (p2.y - p1.y) + (p2.z - p1.z) * (p2.z - p1.z)) * hv
      - ((p2.x - p1.x) * (p3.x - p1.x) + (p2.y - p1.y) * (p3.y - p1.y) + (p2.z - p1.z) * (p3.z - p1.z)) * hu
  · linear_combination
      ((p3.x - p1.x) * (p3.x - p1.x) + (p3.y - p1.y) * (p3.y - p1.y) + (p3.z - p1.z) * (p3.z - p1.z)) * hu
      - ((p2.x - p1.x) * (p3.x - p1.x) + (p2.y - p1.y) * (p3.y - p1.y) + (p2.z - p1.z) * (p3.z - p1.z)) * hv


theorem isOnTriangle_eq_at {topo : blockMeshTopology} {refP2 refP3 ref : label}
    {p1 p2 p3 : point} (p : point)
    (h1 : topo.getBoundaryPointCoord ref = some p1)
    (h2 : topo.getBoundaryPointCoord refP2 = some p2)
    (h3 : topo.getBoundaryPointCoord refP3 = some p3) :
    isOnTriangle topo refP2 refP3 p ref = .ok (isOnTriangleAt p1 p2 p3 p) := by
  simp [isOnTriangle, coordOf, h1, h2, h3, bind, Except.bind, pure, Except.pure]

/-- The projection test at a convex combination of the corners of a non-degenerate
triangle succeeds and outputs the point itself. -/
theorem isOnTriangleAt_combination (p1 p2 p3 : point) (a b c : scalar)
    (hnd : nonDegenerate p1 p2 p3)
    (ha : 0 ≤ a) (hb : 0 ≤ b) (hc : 0 ≤ c) (hsum : a + b + c = 1) :
    isOnTriangleAt p1 p2 p3 (combination a b c p1 p2 p3) =
      some (combination a b c p1 p2 p3) := by
  obtain rfl : a = 1 - c - b := by linarith
  rw [isOnTriangleAt_of_coords p1 p2 p3 _ b c hnd
    (by simp only [point.dot, point.cross, point.sub, point.add, point.smul, combination]; ring)
    (by simp only [point.dot, point.cross, point.sub, point.add, point.smul, combination]; ring)]
  rw [abs_of_nonneg hb, abs_of_nonneg hc, if_pos (by linarith)]

/-! ## Sets and maps -/


theorem mem_setInsert (x a : label) (s : labelSet) : x ∈ setInsert a s ↔ x = a ∨ x ∈ s := by
  induction s with
  | nil => simp [setInsert]
  | cons b bs ih =>
    unfold setInsert
    split_ifs with h1 h2
    · simp
    · subst h2; simp
    · simp only [List.mem_cons, ih]
      tauto

theorem mem_foldl_setInsert (x : label) (tri acc : labelSet) :
    x ∈ tri.foldl (fun acc2 pt => setInsert pt acc2) acc ↔ x ∈ tri ∨ x ∈ acc := by
  induction tri generalizing acc with
  | nil => simp
  | cons a as ih =>
    simp only [List.foldl_cons, ih, mem_setInsert, List.mem_cons]
    tauto

theorem mem_extremPoint_aux (x : label) (tris : triangleSet) (acc : labelSet) :
    x ∈ tris.foldl (fun acc tri => tri.foldl (fun acc2 pt => setInsert pt acc2) acc) acc ↔
      (∃ tri ∈ tris, x ∈ tri) ∨ x ∈ acc := by
  induction tris generalizing acc with
  | nil => simp
  | cons t ts ih =>
    simp only [List.foldl_cons, ih, mem_foldl_setInsert, List.mem_cons, exists_eq_or_imp]
    constructor
    · rintro (h | h | h)
      · exact Or.inl (Or.inr h)
      · exact Or.inl (Or.inl h)
      · exact Or.inr h
    · rintro ((h | h) | h)
      · exact Or.inr (Or.inl h)
      · exact Or.inl h
      · exact Or.inr (Or.inr h)

/-- The set `extremPoint` holds exactly the labels of the triangles. -/
theorem mem_extremPoint (x : label) (tris : triangleSet) :
    x ∈ extremPoint tris ↔ ∃ tri ∈ tris, x ∈ tri := by
  simp [extremPoint, mem_extremPoint_aux]

theorem mapInsert_ne_nil {V : Type} (k : scalar) (v : V) (m : List (scalar × V)) :
    mapInsert k v m ≠ [] := by
  cases m with
  | nil => simp [mapInsert]
  | cons e es =>
    unfold mapInsert
    split_ifs <;> simp

theorem mem_mapInsert {V : Type} {k : scalar} {v : V} {m : List (scalar × V)} {e : scalar × V}
    (h : e ∈ mapInsert k v m) : e = (k, v) ∨ e ∈ m := by
  induction m with
  | nil => simpa [mapInsert] using h
  | cons a as ih =>
    unfold mapInsert at h
    split_ifs at h with h1 h2
    · simpa using h
    · exact Or.inr h
    · rcases List.mem_cons.mp h with h | h
      · exact Or.inr (h ▸ List.mem_cons_self _ _)
      · rcases ih h with h | h
        · exact Or.inl h
        · exact Or.inr (List.mem_cons_of_mem _ h)

theorem mem_mapInsert_of_mem {V : Type} (k : scalar) (v : V) {m : List (scalar × V)}
    {e : scalar × V} (h : e ∈ m) : e ∈ mapInsert k v m := by
  induction m with
  | nil => simp at h
  | cons a as ih =>
    unfold mapInsert
    split_ifs with h1 h2
    · exact List.mem_cons_of_mem _ h
    · exact h
    · rcases List.mem_cons.mp h with h | h
      · exact h ▸ List.mem_cons_self _ _
      · exact List.mem_cons_of_mem _ (ih h)

theorem key_mem_mapInsert {V : Type} (k : scalar) (v : V) (m : List (scalar × V)) :
    ∃ v2, (k, v2) ∈ mapInsert k v m := by
  induction m with
  | nil => exact ⟨v, by simp [mapInsert]⟩
  | cons a as ih =>
    unfold mapInsert
    split_ifs with h1 h2
    · exact ⟨v, List.mem_cons_self _ _⟩
    · exact ⟨a.2, by rw [h2]; exact List.mem_cons_self _ _⟩
    · obtain ⟨v2, hv2⟩ := ih
      exact ⟨v2, List.mem_cons_of_mem _ hv2⟩

theorem pairwise_mapInsert {V : Type} (k : scalar) (v : V) {m : List (scalar × V)}
    (h : m.Pairwise (fun a b => a.1 < b.1)) :
    (mapInsert k v m).Pairwise (fun a b => a.1 < b.1) := by
  induction m with
  | nil => simp [mapInsert]
  | cons a as ih =>
    rw [List.pairwise_cons] at h
    unfold mapInsert
    split_ifs with h1 h2
    · refine List.pairwise_cons.mpr ⟨?_, List.pairwise_cons.mpr h⟩
      intro e he
      rcases List.mem_cons.mp he with he | he
      · rw [he]; exact h1
      · exact lt_trans h1 (h.1 e he)
    · exact List.pairwise_cons.mpr h
    · refine List.pairwise_cons.mpr ⟨?_, ih h.2⟩
      intro e he
      rcases mem_mapInsert he with he | he
      · rw [he]
        exact lt_of_le_of_ne (not_lt.mp h1) (Ne.symm h2)
      · exact h.1 e he

theorem mem_insertAll {V : Type} {kvs m : List (scalar × V)} {e : scalar × V}
    (h : e ∈ insertAll kvs m) : e ∈ kvs ∨ e ∈ m := by
  induction kvs generalizing m with
  | nil => exact Or.inr h
  | cons a as ih =>
    rcases ih h with h | h
    · exact Or.inl (List.mem_cons_of_mem _ h)
    · rcases mem_mapInsert h with h | h
      · exact Or.inl (h ▸ List.mem_cons_self _ _)
      · exact Or.inr h

theorem key_mem_insertAll_of_mem {V : Type} {kvs m : List (scalar × V)} {k : scalar}
    (h : ∃ v, (k, v) ∈ m) : ∃ v, (k, v) ∈ insertAll kvs m := by
  induction kvs generalizing m with
  | nil => exact h
  | cons a as ih =>
    obtain ⟨v, hv⟩ := h
    exact ih ⟨v, mem_mapInsert_of_mem _ _ hv⟩

theorem key_mem_insertAll {V : Type} {kvs : List (scalar × V)} (m : List (scalar × V))
    {e : scalar × V} (h : e ∈ kvs) : ∃ v, (e.1, v) ∈ insertAll kvs m := by
  induction kvs generalizing m with
  | nil => simp at h
  | cons a as ih =>
    rcases List.mem_cons.mp h with h | h
    · subst h
      exact @key_mem_insertAll_of_mem V as _ _ (key_mem_mapInsert e.1 e.2 m)
    · exact ih _ h

theorem pairwise_insertAll {V : Type} (kvs : List (scalar × V)) {m : List (scalar × V)}
    (h : m.Pairwise (fun a b => a.1 < b.1)) :
    (insertAll kvs m).Pairwise (fun a b => a.1 < b.1) := by
  induction kvs generalizing m with
  | nil => exact h
  | cons a as ih => exact ih (pairwise_mapInsert _ _ h)

theorem insertAll_ne_nil {V : Type} {kvs : List (scalar × V)} (m : List (scalar × V))
    (h : kvs ≠ []) : insertAll kvs m ≠ [] := by
  cases kvs with
  | nil => exact absurd rfl h
  | cons a as =>
    intro h0
    obtain ⟨v, hv⟩ := key_mem_insertAll m (List.mem_cons_self a as)
    rw [h0] at hv
    simp at hv

/-- The first entry of a map filled from the empty map is one of the inserted entries and
its key is the least of all inserted keys. -/
theorem head_insertAll {V : Type} {kvs : List (scalar × V)} {first : scalar × V}
    {rest : List (scalar × V)} (h : insertAll kvs [] = first :: rest) :
    first ∈ kvs ∧ ∀ e ∈ kvs, first.1 ≤ e.1 := by
  have hmem : first ∈ insertAll kvs [] := h ▸ List.mem_cons_self _ _
  have hsorted := pairwise_insertAll kvs (List.Pairwise.nil (R := fun a b : scalar × V => a.1 < b.1))
  rw [h, List.pairwise_cons] at hsorted
  refine ⟨(mem_insertAll hmem).resolve_right (by simp), ?_⟩
  intro e he
  obtain ⟨v, hv⟩ := key_mem_insertAll [] he
  rw [h] at hv
  rcases List.mem_cons.mp hv with hv | hv
  · rw [← hv]
  · exact le_of_lt (hsorted.1 (e.1, v) hv)



/-! ## The two loops -/

theorem mapBoundaryFeaturePtsLoop_ok (topo : blockMeshTopology) (g : point) (ref : label)
    (tris : triangleSet) (acc : List (scalar × point))
    (h : ∀ tri ∈ tris, ∃ r, testTriangle topo g ref tri = .ok r) :
    mapBoundaryFeaturePtsLoop topo g ref tris acc = .ok (insertAll (hitList topo g ref tris) acc) := by
  induction tris generalizing acc with
  | nil => rfl
  | cons t ts ih =>
    obtain ⟨r, hr⟩ := h t (List.mem_cons_self _ _)
    have hts : ∀ tri ∈ ts, ∃ r, testTriangle topo g ref tri = .ok r :=
      fun tri htri => h tri (List.mem_cons_of_mem _ htri)
    cases r with
    | none =>
      simp only [mapBoundaryFeaturePtsLoop, hr, ih _ hts, hitList, List.filterMap_cons]
    | some pt =>
      simp only [mapBoundaryFeaturePtsLoop, hr, ih _ hts, hitList, List.filterMap_cons,
        insertAll, List.foldl_cons]

theorem mapBoundaryFeaturePtsLoop_tests_ok {topo : blockMeshTopology} {g : point} {ref : label}
    {tris : triangleSet} {acc m : List (scalar × point)}
    (h : mapBoundaryFeaturePtsLoop topo g ref tris acc = .ok m) :
    ∀ tri ∈ tris, ∃ r, testTriangle topo g ref tri = .ok r := by
  induction tris generalizing acc with
  | nil => simp
  | cons t ts ih =>
    intro tri htri
    unfold mapBoundaryFeaturePtsLoop at h
    cases ht : testTriangle topo g ref t with
    | error e => simp [ht] at h
    | ok r =>
      rcases List.mem_cons.mp htri with rfl | htri
      · exact ⟨r, ht⟩
      · cases r with
        | none => simp only [ht] at h; exact ih h tri htri
        | some pt => simp only [ht] at h; exact ih h tri htri

theorem mem_hitList {topo : blockMeshTopology} {g : point} {ref : label} {tris : triangleSet}
    {e : scalar × point} :
    e ∈ hitList topo g ref tris ↔
      ∃ tri ∈ tris, testTriangle topo g ref tri = .ok (some e.2) ∧
        e.1 = magSqr (point.sub g e.2) := by
  simp only [hitList, List.mem_filterMap]
  constructor
  · rintro ⟨tri, htri, h⟩
    refine ⟨tri, htri, ?_⟩
    split at h
    · next pt hpt =>
      simp only [Option.some.injEq] at h
      subst h
      exact ⟨hpt, rfl⟩
    · simp at h
  · rintro ⟨tri, htri, h1, h2⟩
    refine ⟨tri, htri, ?_⟩
    rw [h1]
    simp only [Option.some.injEq]
    rw [← h2]

theorem distLoop_ok (topo : blockMeshTopology) (g : point) (ls : labelSet)
    (acc : List (scalar × label))
    (h : ∀ l ∈ ls, ∃ c, topo.getBoundaryPointCoord l = some c) :
    distLoop topo g ls acc = .ok (insertAll (labelDistList topo g ls) acc) := by
  induction ls generalizing acc with
  | nil => rfl
  | cons l ls ih =>
    obtain ⟨c, hc⟩ := h l (List.mem_cons_self _ _)
    have hls : ∀ l ∈ ls, ∃ c, topo.getBoundaryPointCoord l = some c :=
      fun l hl => h l (List.mem_cons_of_mem _ hl)
    simp only [distLoop, coordOf, hc, ih _ hls, labelDistList, List.filterMap_cons, insertAll,
      List.foldl_cons]

theorem mem_labelDistList {topo : blockMeshTopology} {g : point} {ls : labelSet}
    {e : scalar × label} :
    e ∈ labelDistList topo g ls ↔
      e.2 ∈ ls ∧ ∃ c, topo.getBoundaryPointCoord e.2 = some c ∧
        e.1 = magSqr (point.sub g c) := by
  simp only [labelDistList, List.mem_filterMap]
  constructor
  · rintro ⟨l, hl, h⟩
    split at h
    · next c hc =>
      simp only [Option.some.injEq] at h
      subst h
      exact ⟨hl, c, hc, rfl⟩
    · simp at h
  · rintro ⟨hl, c, hc, h2⟩
    refine ⟨e.2, hl, ?_⟩
    rw [hc]
    simp only [Option.some.injEq]
    rw [← h2]

/-! ## The three ways out of `getBoundaryPoint` -/

theorem getBoundaryPoint_hit (fuel : Nat) {topo : blockMeshTopology} {self : boundaryPoint}
    {g : point} {ref : label} {hit : scalar × point} {rest : List (scalar × point)}
    (h : mapBoundaryFeaturePts topo self g ref = .ok (hit :: rest)) :
    getBoundaryPoint (fuel + 1) topo self g ref = .ok (hit.2, self) := by
  simp only [getBoundaryPoint, h]

theorem getBoundaryPoint_convex (fuel : Nat) {topo : blockMeshTopology} {self : boundaryPoint}
    {g : point} {ref : label} {c : point} {first : scalar × label}
    {rest : List (scalar × label)}
    (h : mapBoundaryFeaturePts topo self g ref = .ok [])
    (hc : topo.getBoundaryPointCoord ref = some c)
    (hd : distLoop topo g (extremPoint self.trianglesNew_) [] = .ok (first :: rest))
    (hlt : magSqr (point.sub g c) < first.1) :
    getBoundaryPoint (fuel + 1) topo self g ref = .ok (c, self) := by
  simp only [getBoundaryPoint, h, coordOf, hc, hd, if_pos hlt]

theorem getBoundaryPoint_concave (fuel : Nat) {topo : blockMeshTopology} {self : boundaryPoint}
    {g : point} {ref : label} {c : point} {first : scalar × label}
    {rest : List (scalar × label)} {nb : boundaryPoint}
    (h : mapBoundaryFeaturePts topo self g ref = .ok [])
    (hc : topo.getBoundaryPointCoord ref = some c)
    (hd : distLoop topo g (extremPoint self.trianglesNew_) [] = .ok (first :: rest))
    (hlt : ¬ magSqr (point.sub g c) < first.1)
    (hnb : topo.getPointTopoPtr first.2 = some nb) :
    getBoundaryPoint (fuel + 1) topo self g ref =
      getBoundaryPoint fuel topo { self with trianglesNew_ := nb.getTrianglesLinked } g
        first.2 := by
  simp only [getBoundaryPoint, h, coordOf, hc, hd, if_neg hlt, changeBoundaryPointLinkedFaces,
    trianglesOf, hnb]


/-! ## Claims about the projection test -/

/-- C1: for a non-degenerate triangle given by the coordinates of (ref, refP2, refP3) and a
point that is a convex combination of its corners, `isOnTriangle` returns true and the
output point equals the input point. -/
theorem isOnTriangle_convex_combination (topo : blockMeshTopology) (refP2 refP3 ref : label)
    (p1 p2 p3 : point) (a b c : scalar)
    (h1 : topo.getBoundaryPointCoord ref = some p1)
    (h2 : topo.getBoundaryPointCoord refP2 = some p2)
    (h3 : topo.getBoundaryPointCoord refP3 = some p3)
    (hnd : nonDegenerate p1 p2 p3)
    (ha : 0 ≤ a) (hb : 0 ≤ b) (hc : 0 ≤ c) (hsum : a + b + c = 1) :
    isOnTriangle topo refP2 refP3 (combination a b c p1 p2 p3) ref =
      .ok (some (combination a b c p1 p2 p3)) := by
  rw [isOnTriangle_eq_at _ h1 h2 h3, isOnTriangleAt_combination p1 p2 p3 a b c hnd ha hb hc hsum]

/-- Witness of C1: the centroid of the right triangle of the one-triangle mesh. -/
theorem isOnTriangle_convex_combination_witness :
    nonDegenerate ⟨0, 0, 0⟩ ⟨1, 0, 0⟩ ⟨0, 1, 0⟩ ∧
    isOnTriangle cornerTopo 0 2 (combination (1/3) (1/3) (1/3) ⟨0, 0, 0⟩ ⟨1, 0, 0⟩ ⟨0, 1, 0⟩) 1 =
      .ok (some (combination (1/3) (1/3) (1/3) ⟨0, 0, 0⟩ ⟨1, 0, 0⟩ ⟨0, 1, 0⟩)) :=
  ⟨by unfold nonDegenerate; decide!,
   isOnTriangle_convex_combination cornerTopo 0 2 1 ⟨0, 0, 0⟩ ⟨1, 0, 0⟩ ⟨0, 1, 0⟩ (1/3) (1/3) (1/3)
     rfl rfl rfl (by unfold nonDegenerate; decide!) (by norm_num) (by norm_num) (by norm_num)
     (by norm_num)⟩

/-- C2, the code at a failing input: in the right triangle (0,0,0), (1,0,0), (0,1,0) the
point (-1/5, 3/10, 0) lies in the plane, is its own orthogonal projection and is not on the
triangle, so the claim asks for false; `isOnTriangle` returns true, with the output
(1/5, 3/10, 0). -/
theorem isOnTriangle_outside_counterexample :
    nonDegenerate ⟨0, 0, 0⟩ ⟨1, 0, 0⟩ ⟨0, 1, 0⟩ ∧
    isProjection ⟨0, 0, 0⟩ ⟨1, 0, 0⟩ ⟨0, 1, 0⟩ ⟨-1/5, 3/10, 0⟩ ⟨-1/5, 3/10, 0⟩ (-1/5) (3/10) ∧
    ¬ onTriangle ⟨0, 0, 0⟩ ⟨1, 0, 0⟩ ⟨0, 1, 0⟩ ⟨-1/5, 3/10, 0⟩ ∧
    isOnTriangle cornerTopo 0 2 ⟨-1/5, 3/10, 0⟩ 1 = .ok (some ⟨1/5, 3/10, 0⟩) := by
  refine ⟨by unfold nonDegenerate; decide!, by unfold isProjection; decide!, ?_, by decide!⟩
  rintro ⟨a, b, c, -, hb, -, -, h⟩
  have hx := congrArg point.x h
  simp only [combination, point.add, point.smul] at hx
  linarith

/-- What the test decides: for a non-degenerate triangle and a point whose orthogonal
projection onto the plane of the triangle is `p1 + b*(p2 - p1) + c*(p3 - p1)`,
`isOnTriangle` returns false exactly when `|b| + |c| > 1`. -/
theorem isOnTriangle_false_iff (topo : blockMeshTopology) (refP2 refP3 ref : label)
    (p1 p2 p3 p q : point) (b c : scalar)
    (h1 : topo.getBoundaryPointCoord ref = some p1)
    (h2 : topo.getBoundaryPointCoord refP2 = some p2)
    (h3 : topo.getBoundaryPointCoord refP3 = some p3)
    (hnd : nonDegenerate p1 p2 p3)
    (hq : isProjection p1 p2 p3 p q b c) :
    isOnTriangle topo refP2 refP3 p ref = .ok none ↔ 1 < |b| + |c| := by
  rw [isOnTriangle_eq_at _ h1 h2 h3,
    isOnTriangleAt_of_coords p1 p2 p3 p b c hnd (coords_of_isProjection hq).1
      (coords_of_isProjection hq).2]
  by_cases h : |b| + |c| ≤ 1
  · simp [h, not_lt.mpr h]
  · simp [h, not_le.mp h]

/-- The point (1, 1, 0) has the coordinates b = 1 and c = 1 and fails the test. -/
theorem isOnTriangle_false_iff_witness :
    nonDegenerate ⟨0, 0, 0⟩ ⟨1, 0, 0⟩ ⟨0, 1, 0⟩ ∧
    isProjection ⟨0, 0, 0⟩ ⟨1, 0, 0⟩ ⟨0, 1, 0⟩ ⟨1, 1, 0⟩ ⟨1, 1, 0⟩ 1 1 ∧
    (isOnTriangle cornerTopo 0 2 ⟨1, 1, 0⟩ 1 = .ok none ↔ 1 < |(1 : scalar)| + |(1 : scalar)|) :=
  ⟨by unfold nonDegenerate; decide!, by unfold isProjection; decide!,
   isOnTriangle_false_iff cornerTopo 0 2 1 ⟨0, 0, 0⟩ ⟨1, 0, 0⟩ ⟨0, 1, 0⟩ ⟨1, 1, 0⟩ ⟨1, 1, 0⟩ 1 1
     rfl rfl rfl (by unfold nonDegenerate; decide!) (by unfold isProjection; decide!)⟩

/-! ## Claims about the facet search and the resolution -/

theorem magSqr_nonneg (a : point) : 0 ≤ magSqr a := by
  simp only [magSqr, point.dot]
  have hx := mul_self_nonneg a.x
  have hy := mul_self_nonneg a.y
  have hz := mul_self_nonneg a.z
  linarith

theorem eq_of_magSqr_sub_eq_zero {a b : point} (h : magSqr (point.sub a b) = 0) : b = a := by
  have h0 := (dot_self_eq_zero _).mp h
  have hx := congrArg point.x h0
  have hy := congrArg point.y h0
  have hz := congrArg point.z h0
  simp only [point.sub] at hx hy hz
  ext <;> linarith

theorem magSqr_sub_self (a : point) : magSqr (point.sub a a) = 0 := by
  simp [magSqr, point.dot, point.sub]

theorem testTriangle_eq {topo : blockMeshTopology} {g : point} {ref : label} {tri : labelSet}
    {b e : label} (hb : tri.head? = some b) (he : tri.getLast? = some e) :
    testTriangle topo g ref tri = isOnTriangle topo b e g ref := by
  simp [testTriangle, hb, he, deref, bind, Except.bind]

theorem ne_nil_of_testTriangle_ok {topo : blockMeshTopology} {g : point} {ref : label}
    {tri : labelSet} {r : Option point} (h : testTriangle topo g ref tri = .ok r) : tri ≠ [] := by
  rintro rfl
  simp [testTriangle, deref, bind, Except.bind] at h

theorem testTriangle_ok_of_known {topo : blockMeshTopology} (g : point) {ref : label}
    {tri : labelSet} {c : point} (hc : topo.getBoundaryPointCoord ref = some c)
    (hne : tri ≠ []) (hk : ∀ l ∈ tri, ∃ cl, topo.getBoundaryPointCoord l = some cl) :
    ∃ r, testTriangle topo g ref tri = .ok r := by
  obtain ⟨b, hb⟩ : ∃ b, tri.head? = some b := by
    cases tri with
    | nil => exact absurd rfl hne
    | cons a as => exact ⟨a, rfl⟩
  obtain ⟨e, he⟩ : ∃ e, tri.getLast? = some e :=
    ⟨tri.getLast hne, List.getLast?_eq_getLast _ hne⟩
  obtain ⟨p2, h2⟩ := hk b (List.mem_of_mem_head? hb)
  obtain ⟨p3, h3⟩ := hk e (List.mem_of_mem_getLast? he)
  exact ⟨_, (testTriangle_eq hb he).trans (isOnTriangle_eq_at g hc h2 h3)⟩

theorem tests_ok_of_known {topo : blockMeshTopology} (g : point) {ref : label}
    {tris : triangleSet} {c : point} (hc : topo.getBoundaryPointCoord ref = some c)
    (hk : knownLabels topo tris) :
    ∀ tri ∈ tris, ∃ r, testTriangle topo g ref tri = .ok r :=
  fun tri htri => testTriangle_ok_of_known g hc (hk tri htri).1
    (fun l hl => Option.isSome_iff_exists.mp ((hk tri htri).2 l hl))

/-- Counterexample to C3: the active triangle {3, 4, 5} is non-degenerate and the point
(1, 0, 0) is its corner 4, but anchored at label 1 the call returns (0, 0, 0). -/
theorem getBoundaryPoint_idempotent_counterexample :
    [3, 4, 5] ∈ apexPoint.trianglesNew_ ∧
    apexTopo.getBoundaryPointCoord 3 = some ⟨0, 0, 0⟩ ∧
    apexTopo.getBoundaryPointCoord 4 = some ⟨1, 0, 0⟩ ∧
    apexTopo.getBoundaryPointCoord 5 = some ⟨0, 1, 0⟩ ∧
    nonDegenerate ⟨0, 0, 0⟩ ⟨1, 0, 0⟩ ⟨0, 1, 0⟩ ∧
    onTriangle ⟨0, 0, 0⟩ ⟨1, 0, 0⟩ ⟨0, 1, 0⟩ ⟨1, 0, 0⟩ ∧
    (∃ fuel, getBoundaryPoint fuel apexTopo apexPoint ⟨1, 0, 0⟩ 1 = .ok (⟨0, 0, 0⟩, apexPoint)) ∧
    ¬ ∃ fuel s, getBoundaryPoint fuel apexTopo apexPoint ⟨1, 0, 0⟩ 1 = .ok (⟨1, 0, 0⟩, s) := by
  have hstep : ∀ fuel, getBoundaryPoint (fuel + 1) apexTopo apexPoint ⟨1, 0, 0⟩ 1 =
      .ok (⟨0, 0, 0⟩, apexPoint) := fun fuel =>
    @getBoundaryPoint_hit fuel _ _ _ _ (1, ⟨0, 0, 0⟩) [] (by decide!)
  refine ⟨by decide!, rfl, rfl, rfl, by unfold nonDegenerate; decide!,
    ⟨0, 1, 0, le_refl _, by norm_num, le_refl _, by norm_num, by decide!⟩, ⟨1, hstep 0⟩, ?_⟩
  rintro ⟨fuel, s, h⟩
  cases fuel with
  | zero => simp [getBoundaryPoint] at h
  | succ n =>
    rw [hstep n] at h
    simp only [Except.ok.injEq, Prod.mk.injEq] at h
    exact absurd h.1 (by decide!)

/-- C3, amended: when the point lies on the non-degenerate triangle spanned by the
coordinates of the anchor and of the first and the last label of some active triangle (the
triangle the search tests for it), and the directory knows the labels of the active
triangles, the call returns the point itself and keeps the active triangles. -/
theorem getBoundaryPoint_on_tested_triangle (fuel : Nat) (topo : blockMeshTopology)
    (self : boundaryPoint) (p : point) (ref : label) (tri : labelSet) (b e : label)
    (p1 p2 p3 : point)
    (htri : tri ∈ self.trianglesNew_) (hb : tri.head? = some b) (he : tri.getLast? = some e)
    (h1 : topo.getBoundaryPointCoord ref = some p1)
    (h2 : topo.getBoundaryPointCoord b = some p2)
    (h3 : topo.getBoundaryPointCoord e = some p3)
    (hnd : nonDegenerate p1 p2 p3) (hon : onTriangle p1 p2 p3 p)
    (hk : knownLabels topo self.trianglesNew_) :
    getBoundaryPoint (fuel + 1) topo self p ref = .ok (p, self) := by
  obtain ⟨a, bb, c, ha, hbb, hc, hsum, rfl⟩ := hon
  have htest : testTriangle topo (combination a bb c p1 p2 p3) ref tri =
      .ok (some (combination a bb c p1 p2 p3)) :=
    (testTriangle_eq hb he).trans ((isOnTriangle_eq_at _ h1 h2 h3).trans
      (congrArg Except.ok (isOnTriangleAt_combination p1 p2 p3 a bb c hnd ha hbb hc hsum)))
  have hmap := mapBoundaryFeaturePtsLoop_ok topo (combination a bb c p1 p2 p3) ref
    self.trianglesNew_ [] (tests_ok_of_known _ h1 hk)
  have hmem : ((0 : scalar), combination a bb c p1 p2 p3) ∈
      hitList topo (combination a bb c p1 p2 p3) ref self.trianglesNew_ :=
    mem_hitList.mpr ⟨tri, htri, htest, (magSqr_sub_self _).symm⟩
  cases hl : insertAll (hitList topo (combination a bb c p1 p2 p3) ref self.trianglesNew_) [] with
  | nil => exact absurd hl (insertAll_ne_nil [] (List.ne_nil_of_mem hmem))
  | cons first rest =>
    obtain ⟨hfirst, hmin⟩ := head_insertAll hl
    obtain ⟨-, -, -, hkey⟩ := mem_hitList.mp hfirst
    have h0 : first.1 ≤ 0 := hmin _ hmem
    have hpt : first.2 = combination a bb c p1 p2 p3 :=
      eq_of_magSqr_sub_eq_zero (le_antisymm (hkey ▸ h0) (magSqr_nonneg _))
    rw [hl] at hmap
    rw [getBoundaryPoint_hit fuel hmap, hpt]

/-- Witness of C3, amended: the centroid of the triangle {0, 1, 2} anchored at its middle
label 1. -/
theorem getBoundaryPoint_on_tested_triangle_witness :
    nonDegenerate ⟨0, 0, 0⟩ ⟨1, 0, 0⟩ ⟨0, 1, 0⟩ ∧
    onTriangle ⟨0, 0, 0⟩ ⟨1, 0, 0⟩ ⟨0, 1, 0⟩ ⟨1/3, 1/3, 0⟩ ∧
    knownLabels cornerTopo cornerPoint.trianglesNew_ ∧
    getBoundaryPoint 1 cornerTopo cornerPoint ⟨1/3, 1/3, 0⟩ 1 = .ok (⟨1/3, 1/3, 0⟩, cornerPoint) :=
  have hnd : nonDegenerate ⟨0, 0, 0⟩ ⟨1, 0, 0⟩ ⟨0, 1, 0⟩ := by unfold nonDegenerate; decide!
  have hon : onTriangle ⟨0, 0, 0⟩ ⟨1, 0, 0⟩ ⟨0, 1, 0⟩ ⟨1/3, 1/3, 0⟩ :=
    ⟨1/3, 1/3, 1/3, by norm_num, by norm_num, by norm_num, by norm_num, by decide!⟩
  have hk : knownLabels cornerTopo cornerPoint.trianglesNew_ := by
    unfold knownLabels; decide!
  ⟨hnd, hon, hk,
   getBoundaryPoint_on_tested_triangle 0 cornerTopo cornerPoint ⟨1/3, 1/3, 0⟩ 1 [0, 1, 2] 0 2
     ⟨0, 0, 0⟩ ⟨1, 0, 0⟩ ⟨0, 1, 0⟩ (by decide!) rfl rfl rfl rfl rfl hnd hon hk⟩

theorem hitList_eq_nil_iff {topo : blockMeshTopology} {g : point} {ref : label}
    {tris : triangleSet} (hok : ∀ tri ∈ tris, ∃ r, testTriangle topo g ref tri = .ok r) :
    hitList topo g ref tris = [] ↔ ∀ tri ∈ tris, testTriangle topo g ref tri = .ok none := by
  constructor
  · intro h tri htri
    obtain ⟨r, hr⟩ := hok tri htri
    cases r with
    | none => exact hr
    | some pt =>
      have hmem : (magSqr (point.sub g pt), pt) ∈ hitList topo g ref tris :=
        mem_hitList.mpr ⟨tri, htri, hr, rfl⟩
      rw [h] at hmem
      simp at hmem
  · intro h
    apply List.eq_nil_iff_forall_not_mem.mpr
    intro e he
    obtain ⟨tri, htri, ht, -⟩ := mem_hitList.mp he
    rw [h tri htri] at ht
    simp at ht

theorem mapBoundaryFeaturePts_eq_nil {topo : blockMeshTopology} {self : boundaryPoint}
    {g : point} {ref : label}
    (h : ∀ tri ∈ self.trianglesNew_, testTriangle topo g ref tri = .ok none) :
    mapBoundaryFeaturePts topo self g ref = .ok [] := by
  have hok : ∀ tri ∈ self.trianglesNew_, ∃ r, testTriangle topo g ref tri = .ok r :=
    fun tri htri => ⟨none, h tri htri⟩
  rw [mapBoundaryFeaturePts, mapBoundaryFeaturePtsLoop_ok _ _ _ _ _ hok,
    (hitList_eq_nil_iff hok).mpr h]
  rfl

/-- The map `dist` when the directory knows every label of the active triangles: its first
entry exists when there is a label, holds a label of an active triangle with its distance,
and no label is nearer. -/
theorem distLoop_first {topo : blockMeshTopology} {tris : triangleSet} (g : point)
    (hk : ∀ tri ∈ tris, ∀ l ∈ tri, ∃ cl, topo.getBoundaryPointCoord l = some cl)
    (hne : ∃ tri ∈ tris, tri ≠ []) :
    ∃ first rest cn, distLoop topo g (extremPoint tris) [] = .ok (first :: rest) ∧
      (∃ tri ∈ tris, first.2 ∈ tri) ∧ topo.getBoundaryPointCoord first.2 = some cn ∧
      first.1 = magSqr (point.sub g cn) ∧
      ∀ tri ∈ tris, ∀ l ∈ tri, ∀ cl, topo.getBoundaryPointCoord l = some cl →
        first.1 ≤ magSqr (point.sub g cl) := by
  have hk2 : ∀ l ∈ extremPoint tris, ∃ c, topo.getBoundaryPointCoord l = some c := by
    intro l hl
    obtain ⟨tri, htri, hltri⟩ := (mem_extremPoint l tris).mp hl
    exact hk tri htri l hltri
  have hd := distLoop_ok topo g (extremPoint tris) [] hk2
  obtain ⟨tri0, htri0, hne0⟩ := hne
  obtain ⟨l0, hl0⟩ := List.exists_mem_of_ne_nil tri0 hne0
  obtain ⟨c0, hc0⟩ := hk tri0 htri0 l0 hl0
  have hmem0 : (magSqr (point.sub g c0), l0) ∈ labelDistList topo g (extremPoint tris) :=
    mem_labelDistList.mpr ⟨(mem_extremPoint l0 tris).mpr ⟨tri0, htri0, hl0⟩, c0, hc0, rfl⟩
  cases hl : insertAll (labelDistList topo g (extremPoint tris)) [] with
  | nil => exact absurd hl (insertAll_ne_nil [] (List.ne_nil_of_mem hmem0))
  | cons first rest =>
    obtain ⟨hfirst, hmin⟩ := head_insertAll hl
    obtain ⟨hfl, cn, hcn, hkey⟩ := mem_labelDistList.mp hfirst
    refine ⟨first, rest, cn, hl ▸ hd, (mem_extremPoint _ _).mp hfl, hcn, hkey, ?_⟩
    intro tri htri l hltri cl hcl
    exact hmin (magSqr (point.sub g cl), l)
      (mem_labelDistList.mpr ⟨(mem_extremPoint l tris).mpr ⟨tri, htri, hltri⟩, cl, hcl, rfl⟩)

/-- C4: with non-empty active triangles, when no active triangle passes the projection
test and the guess is strictly nearer to the coordinate of the anchor than to the
coordinate of every label of the active triangles, the call returns exactly the coordinate
of the anchor (and keeps the active triangles). -/
theorem getBoundaryPoint_convex_case (fuel : Nat) (topo : blockMeshTopology)
    (self : boundaryPoint) (g : point) (ref : label) (c : point)
    (hne : self.trianglesNew_ ≠ [])
    (hnone : ∀ tri ∈ self.trianglesNew_, testTriangle topo g ref tri = .ok none)
    (hc : topo.getBoundaryPointCoord ref = some c)
    (hlt : ∀ tri ∈ self.trianglesNew_, ∀ l ∈ tri, ∃ cl,
      topo.getBoundaryPointCoord l = some cl ∧
        magSqr (point.sub g c) < magSqr (point.sub g cl)) :
    getBoundaryPoint (fuel + 1) topo self g ref = .ok (c, self) := by
  obtain ⟨tri0, htri0⟩ := List.exists_mem_of_ne_nil _ hne
  obtain ⟨first, rest, cn, hd, ⟨tri, htri, hfl⟩, hcn, hkey, -⟩ :=
    @distLoop_first topo self.trianglesNew_ g
      (fun tri htri l hl => (hlt tri htri l hl).imp fun _ h => h.1)
      ⟨tri0, htri0, ne_nil_of_testTriangle_ok (hnone tri0 htri0)⟩
  obtain ⟨cl, hcl, hlt1⟩ := hlt tri htri _ hfl
  rw [hcn] at hcl
  cases hcl
  exact getBoundaryPoint_convex fuel (mapBoundaryFeaturePts_eq_nil hnone) hc hd (hkey ▸ hlt1)

/-- Witness of C4: the anchor 1 at (0, 0, 1) above the active triangle {3, 4, 5} and the
guess (0, -1, 3). -/
theorem getBoundaryPoint_convex_case_witness :
    apexPoint.trianglesNew_ ≠ [] ∧
    (∀ tri ∈ apexPoint.trianglesNew_, testTriangle apexTopo ⟨0, -1, 3⟩ 1 tri = .ok none) ∧
    getBoundaryPoint 1 apexTopo apexPoint ⟨0, -1, 3⟩ 1 = .ok (⟨0, 0, 1⟩, apexPoint) :=
  ⟨by decide!, by decide!,
   getBoundaryPoint_convex_case 0 apexTopo apexPoint ⟨0, -1, 3⟩ 1 ⟨0, 0, 1⟩ (by decide!)
     (by decide!) rfl (by
       intro tri htri l hl
       obtain rfl : tri = [3, 4, 5] := by simpa [apexPoint] using htri
       have h345 : l = 3 ∨ l = 4 ∨ l = 5 := by simpa using hl
       rcases h345 with rfl | rfl | rfl
       · exact ⟨⟨0, 0, 0⟩, rfl, by decide!⟩
       · exact ⟨⟨1, 0, 0⟩, rfl, by decide!⟩
       · exact ⟨⟨0, 1, 0⟩, rfl, by decide!⟩)⟩

/-- The call of the witness of C5, evaluated: one re-homing, then a projection. -/
theorem getBoundaryPoint_concave_example :
    getBoundaryPoint 2 apexTopo apexPoint ⟨3/4, 1/8, -1⟩ 1 =
      .ok (⟨3/4, 1/8, 0⟩, apexPoint) := by decide!

/-- C6: when the directory knows the anchor and the labels of the active triangles, the
result of the facet search is empty exactly when no active triangle passes the projection
test; and when some active triangle passes, the call returns the output of one of the
successful tests, which is at least as near to the guess as the output of every successful
test. -/
theorem getBoundaryPoint_minimum_hit (fuel : Nat) (topo : blockMeshTopology)
    (self : boundaryPoint) (g : point) (ref : label) (c : point)
    (hc : topo.getBoundaryPointCoord ref = some c)
    (hk : knownLabels topo self.trianglesNew_) :
    (∃ m, mapBoundaryFeaturePts topo self g ref = .ok m ∧
      (m = [] ↔ ∀ tri ∈ self.trianglesNew_, testTriangle topo g ref tri = .ok none)) ∧
    ((∃ tri ∈ self.trianglesNew_, ∃ q0, testTriangle topo g ref tri = .ok (some q0)) →
      ∃ tri ∈ self.trianglesNew_, ∃ q, testTriangle topo g ref tri = .ok (some q) ∧
        getBoundaryPoint (fuel + 1) topo self g ref = .ok (q, self) ∧
        ∀ tri2 ∈ self.trianglesNew_, ∀ q2, testTriangle topo g ref tri2 = .ok (some q2) →
          magSqr (point.sub g q) ≤ magSqr (point.sub g q2)) := by
  have hok := tests_ok_of_known g hc hk
  have hmap : mapBoundaryFeaturePts topo self g ref =
      .ok (insertAll (hitList topo g ref self.trianglesNew_) []) :=
    mapBoundaryFeaturePtsLoop_ok topo g ref self.trianglesNew_ [] hok
  constructor
  · refine ⟨_, hmap, ?_⟩
    rw [← hitList_eq_nil_iff hok]
    constructor
    · intro h
      by_contra hne
      exact insertAll_ne_nil [] hne h
    · intro h
      rw [h]
      rfl
  · rintro ⟨tri0, htri0, q0, hq0⟩
    have hmem0 : (magSqr (point.sub g q0), q0) ∈ hitList topo g ref self.trianglesNew_ :=
      mem_hitList.mpr ⟨tri0, htri0, hq0, rfl⟩
    cases hl : insertAll (hitList topo g ref self.trianglesNew_) [] with
    | nil => exact absurd hl (insertAll_ne_nil [] (List.ne_nil_of_mem hmem0))
    | cons first rest =>
      obtain ⟨hfirst, hmin⟩ := head_insertAll hl
      obtain ⟨tri, htri, htest, hkey⟩ := mem_hitList.mp hfirst
      rw [hl] at hmap
      refine ⟨tri, htri, first.2, htest, getBoundaryPoint_hit fuel hmap, ?_⟩
      intro tri2 htri2 q2 hq2
      rw [← hkey]
      exact hmin (magSqr (point.sub g q2), q2) (mem_hitList.mpr ⟨tri2, htri2, hq2, rfl⟩)

/-- Witness of C6: in the two-triangle mesh anchored at label 1 the guess (1/4, 1/4, 1/8)
projects onto both triangles, at the squared distances 1/64 and 1/16; the call returns the
nearer output (1/4, 1/4, 0). -/
theorem getBoundaryPoint_minimum_hit_witness :
    knownLabels edgeTopo edgePoint.trianglesNew_ ∧
    testTriangle edgeTopo ⟨1/4, 1/4, 1/8⟩ 1 [0, 1, 2] = .ok (some ⟨1/4, 1/4, 0⟩) ∧
    testTriangle edgeTopo ⟨1/4, 1/4, 1/8⟩ 1 [0, 1, 3] = .ok (some ⟨1/4, 0, 1/8⟩) ∧
    getBoundaryPoint 1 edgeTopo edgePoint ⟨1/4, 1/4, 1/8⟩ 1 = .ok (⟨1/4, 1/4, 0⟩, edgePoint) ∧
    ((∃ m, mapBoundaryFeaturePts edgeTopo edgePoint ⟨1/4, 1/4, 1/8⟩ 1 = .ok m ∧
      (m = [] ↔ ∀ tri ∈ edgePoint.trianglesNew_,
        testTriangle edgeTopo ⟨1/4, 1/4, 1/8⟩ 1 tri = .ok none)) ∧
    ((∃ tri ∈ edgePoint.trianglesNew_, ∃ q0,
        testTriangle edgeTopo ⟨1/4, 1/4, 1/8⟩ 1 tri = .ok (some q0)) →
      ∃ tri ∈ edgePoint.trianglesNew_, ∃ q,
        testTriangle edgeTopo ⟨1/4, 1/4, 1/8⟩ 1 tri = .ok (some q) ∧
        getBoundaryPoint (0 + 1) edgeTopo edgePoint ⟨1/4, 1/4, 1/8⟩ 1 = .ok (q, edgePoint) ∧
        ∀ tri2 ∈ edgePoint.trianglesNew_, ∀ q2,
          testTriangle edgeTopo ⟨1/4, 1/4, 1/8⟩ 1 tri2 = .ok (some q2) →
          magSqr (point.sub ⟨1/4, 1/4, 1/8⟩ q) ≤ magSqr (point.sub ⟨1/4, 1/4, 1/8⟩ q2))) :=
  ⟨by unfold knownLabels; decide!, by decide!, by decide!, by decide!,
   getBoundaryPoint_minimum_hit 0 edgeTopo edgePoint ⟨1/4, 1/4, 1/8⟩ 1 ⟨0, 0, 0⟩ rfl
     (by unfold knownLabels; decide!)⟩

/-! ## Termination, the stubs, and the frame of the resolution -/

/-- C7, the code at a failing input: in the one-triangle mesh, for the object of vertex 1
and the guess (-1, -1, 0) beyond the corner at vertex 1, the call anchored at 1 uses up
every fuel: it re-homes to label 1 itself, into the same state, and never returns. -/
theorem getBoundaryPoint_never_returns (fuel : Nat) :
    getBoundaryPoint fuel cornerTopo cornerPoint ⟨-1, -1, 0⟩ 1 = .error .outOfFuel := by
  induction fuel with
  | zero => rfl
  | succ n ih =>
    have hstep := @getBoundaryPoint_concave n cornerTopo cornerPoint ⟨-1, -1, 0⟩ 1 ⟨0, 0, 0⟩
      (2, 1) [(5, 0)] cornerPoint (by decide!) rfl (by decide!) (by decide!) rfl
    rw [hstep]
    exact ih

/-- C8: each of the three feature-edge operations ends in the fatal error, for every
object and every argument, and so never returns a point or a map. -/
theorem featureEdge_operations_fatal (self : boundaryPoint) (guessedPoint : point)
    (ref : label) :
    (∃ fn msg, getFeatureEdgePoint self guessedPoint ref = .error (.fatalError fn msg)) ∧
    (∃ fn msg, mapNeiborFeaturePts self guessedPoint ref = .error (.fatalError fn msg)) ∧
    (∃ fn msg, changeFeatureEdgeLinkedsPoint self ref guessedPoint =
      .error (.fatalError fn msg)) ∧
    (∀ r, getFeatureEdgePoint self guessedPoint ref ≠ .ok r) ∧
    (∀ m, mapNeiborFeaturePts self guessedPoint ref ≠ .ok m) ∧
    (∀ r, changeFeatureEdgeLinkedsPoint self ref guessedPoint ≠ .ok r) :=
  ⟨⟨_, _, rfl⟩, ⟨_, _, rfl⟩, ⟨_, _, rfl⟩,
   fun _ h => by simp [getFeatureEdgePoint] at h,
   fun _ h => by simp [mapNeiborFeaturePts] at h,
   fun _ h => by simp [changeFeatureEdgeLinkedsPoint] at h⟩

/-- What one call leaves of the object: the two fields set at construction are unchanged,
and the active triangles are the previous ones or those owned by a label of the
directory. -/
theorem getBoundaryPoint_state (fuel : Nat) (topo : blockMeshTopology) (self : boundaryPoint)
    (g : point) (ref : label) (pt : point) (s2 : boundaryPoint)
    (h : getBoundaryPoint fuel topo self g ref = .ok (pt, s2)) :
    s2.triangles_ = self.triangles_ ∧ s2.initialPoint_ = self.initialPoint_ ∧
    (s2.trianglesNew_ = self.trianglesNew_ ∨
      ∃ l nb, topo.getPointTopoPtr l = some nb ∧ s2.trianglesNew_ = nb.getTrianglesLinked) := by
  induction fuel generalizing self ref with
  | zero => simp [getBoundaryPoint] at h
  | succ n ih =>
    simp only [getBoundaryPoint, changeBoundaryPointLinkedFaces, trianglesOf] at h
    split at h
    · simp at h
    · simp only [Except.ok.injEq, Prod.mk.injEq] at h
      rw [← h.2]
      exact ⟨rfl, rfl, Or.inl rfl⟩
    · split at h
      · simp at h
      · split at h
        · simp at h
        · simp at h
        · next first rest hd =>
          split at h
          · simp only [Except.ok.injEq, Prod.mk.injEq] at h
            rw [← h.2]
            exact ⟨rfl, rfl, Or.inl rfl⟩
          · cases hnb : topo.getPointTopoPtr first.2 with
            | none => simp [hnb] at h
            | some nb =>
              simp only [hnb] at h
              obtain ⟨h1, h2, h3⟩ := ih _ _ h
              refine ⟨h1, h2, Or.inr ?_⟩
              rcases h3 with h3 | h3
              · exact ⟨first.2, nb, hnb, h3⟩
              · exact h3

theorem smoothedPointSeq_fields (fuel : Nat) (self : boundaryPoint)
    (calls : List (blockMeshTopology × point × label)) (s2 : boundaryPoint)
    (h : smoothedPointSeq fuel self calls = .ok s2) :
    s2.triangles_ = self.triangles_ ∧ s2.initialPoint_ = self.initialPoint_ := by
  induction calls generalizing self with
  | nil =>
    simp only [smoothedPointSeq, Except.ok.injEq] at h
    rw [h]
    exact ⟨rfl, rfl⟩
  | cons call rest ih =>
    simp only [smoothedPointSeq, smoothedPoint] at h
    split at h
    · simp at h
    · next r hr =>
      obtain ⟨h1, h2⟩ := ih _ h
      obtain ⟨h3, h4, -⟩ := getBoundaryPoint_state fuel call.1 self call.2.1 call.2.2 r.1 r.2 hr
      exact ⟨h1.trans h3, h2.trans h4⟩

/-- C9: after every sequence of calls of `smoothedPoint` on an object, also calls that
re-home, `getTrianglesLinked` still returns the triangle set given at construction and
`getboundaryPoint` still returns the point given at construction. -/
theorem smoothedPointSeq_keeps_original (fuel : Nat) (triangles : triangleSet)
    (initialPoint : point) (calls : List (blockMeshTopology × point × label))
    (s2 : boundaryPoint)
    (h : smoothedPointSeq fuel (boundaryPoint.new triangles initialPoint) calls = .ok s2) :
    s2.getTrianglesLinked = triangles ∧ s2.getboundaryPoint = initialPoint :=
  smoothedPointSeq_fields fuel _ calls s2 h

/-- Witness of C9: two calls on the object of vertex 2 of the ridge, the first of which
re-homes to vertex 3. -/
theorem smoothedPointSeq_keeps_original_witness :
    smoothedPointSeq 2 (boundaryPoint.new [[1, 2, 3]] ⟨0, 0, 0⟩) ridgeCalls =
      .ok { triangles_ := [[1, 2, 3]], trianglesNew_ := [[1, 3, 4]], initialPoint_ := ⟨0, 0, 0⟩ } ∧
    (({ triangles_ := [[1, 2, 3]], trianglesNew_ := [[1, 3, 4]], initialPoint_ := ⟨0, 0, 0⟩ } :
        boundaryPoint).getTrianglesLinked = [[1, 2, 3]] ∧
      ({ triangles_ := [[1, 2, 3]], trianglesNew_ := [[1, 3, 4]], initialPoint_ := ⟨0, 0, 0⟩ } :
        boundaryPoint).getboundaryPoint = ⟨0, 0, 0⟩) :=
  ⟨by decide!,
   smoothedPointSeq_keeps_original 2 [[1, 2, 3]] ⟨0, 0, 0⟩ ridgeCalls _ (by decide!)⟩

theorem smoothedPointSeq_active (fuel : Nat) (ptrs : label → Option boundaryPoint)
    (self : boundaryPoint) (calls : List (blockMeshTopology × point × label))
    (hcalls : ∀ call ∈ calls, call.1.getPointTopoPtr = ptrs) (s2 : boundaryPoint)
    (h : smoothedPointSeq fuel self calls = .ok s2) :
    s2.trianglesNew_ = self.trianglesNew_ ∨
      ∃ l nb, ptrs l = some nb ∧ s2.trianglesNew_ = nb.getTrianglesLinked := by
  induction calls generalizing self with
  | nil =>
    simp only [smoothedPointSeq, Except.ok.injEq] at h
    rw [h]
    exact Or.inl rfl
  | cons call rest ih =>
    simp only [smoothedPointSeq, smoothedPoint] at h
    split at h
    · simp at h
    · next r hr =>
      have hrest : ∀ c ∈ rest, c.1.getPointTopoPtr = ptrs :=
        fun c hc => hcalls c (List.mem_cons_of_mem _ hc)
      obtain ⟨-, -, h3⟩ := getBoundaryPoint_state fuel call.1 self call.2.1 call.2.2 r.1 r.2 hr
      rw [hcalls call (List.mem_cons_self _ _)] at h3
      rcases ih _ hrest h with h4 | h4
      · rcases h3 with h3 | h3
        · exact Or.inl (h4.trans h3)
        · obtain ⟨l, nb, hl, hnb⟩ := h3
          exact Or.inr ⟨l, nb, hl, h4.trans hnb⟩
      · exact Or.inr h4

/-- C10: an object constructed from the triangle set that the directory records for its own
vertex has, right after construction, active triangles equal to its original triangles;
and after every sequence of calls of `smoothedPoint` against directories with these
objects, its active triangles are the original triangles of some object of the directory
(its own, or that of a label it re-homed to). -/
theorem activeFacets_owned (fuel : Nat) (ptrs : label → Option boundaryPoint) (own : label)
    (registered : boundaryPoint) (triangles : triangleSet) (initialPoint : point)
    (calls : List (blockMeshTopology × point × label)) (s2 : boundaryPoint)
    (hown : ptrs own = some registered)
    (hreg : registered.getTrianglesLinked = triangles)
    (hcalls : ∀ call ∈ calls, call.1.getPointTopoPtr = ptrs)
    (h : smoothedPointSeq fuel (boundaryPoint.new triangles initialPoint) calls = .ok s2) :
    (boundaryPoint.new triangles initialPoint).trianglesNew_ =
      (boundaryPoint.new triangles initialPoint).getTrianglesLinked ∧
    ∃ l nb, ptrs l = some nb ∧ s2.trianglesNew_ = nb.getTrianglesLinked := by
  refine ⟨rfl, ?_⟩
  rcases smoothedPointSeq_active fuel ptrs _ calls hcalls s2 h with h1 | h1
  · exact ⟨own, registered, hown, h1.trans hreg.symm⟩
  · exact h1

/-- Witness of C10: the two calls on the object of vertex 2 of the ridge; afterwards the
active triangles are those of vertex 3. -/
theorem activeFacets_owned_witness :
    ridgePtr 2 = some (boundaryPoint.new [[1, 2, 3]] ⟨0, 0, 0⟩) ∧
    (∀ call ∈ ridgeCalls, call.1.getPointTopoPtr = ridgePtr) ∧
    smoothedPointSeq 2 (boundaryPoint.new [[1, 2, 3]] ⟨0, 0, 0⟩) ridgeCalls =
      .ok { triangles_ := [[1, 2, 3]], trianglesNew_ := [[1, 3, 4]], initialPoint_ := ⟨0, 0, 0⟩ } ∧
    ((boundaryPoint.new [[1, 2, 3]] ⟨0, 0, 0⟩).trianglesNew_ =
      (boundaryPoint.new [[1, 2, 3]] ⟨0, 0, 0⟩).getTrianglesLinked ∧
    ∃ l nb, ridgePtr l = some nb ∧
      ({ triangles_ := [[1, 2, 3]], trianglesNew_ := [[1, 3, 4]], initialPoint_ := ⟨0, 0, 0⟩ } :
        boundaryPoint).trianglesNew_ = nb.getTrianglesLinked) :=
  have hcalls : ∀ call ∈ ridgeCalls, call.1.getPointTopoPtr = ridgePtr := by
    intro call hcall
    simp only [ridgeCalls, List.mem_cons, List.mem_singleton, List.not_mem_nil, or_false] at hcall
    rcases hcall with rfl | rfl <;> rfl
  ⟨rfl, hcalls, by decide!,
   activeFacets_owned 2 ridgePtr 2 (boundaryPoint.new [[1, 2, 3]] ⟨0, 0, 0⟩) [[1, 2, 3]]
     ⟨0, 0, 0⟩ ridgeCalls _ rfl rfl hcalls (by decide!)⟩

/-! ## The anchor among the labels of its own triangles -/

theorem testTriangle_eq_testLabels (topo : blockMeshTopology) (g : point) (ref : label)
    (tri : labelSet) :
    testTriangle topo g ref tri =
      match testLabels tri with
      | .ok be => isOnTriangle topo be.1 be.2 g ref
      | .error e => .error e := by
  simp only [testTriangle, testLabels, bind, Except.bind, pure, Except.pure]
  cases deref tri.head? with
  | error e => rfl
  | ok b =>
    cases deref tri.getLast? with
    | error e => rfl
    | ok e => rfl

/-- The labels passed for a triangle of three labels are the first and the third. -/
theorem testLabels_triple (a b c : label) : testLabels [a, b, c] = .ok (a, c) := rfl


/-- C11, the code at a failing input: in the two-triangle mesh the anchor 1 is a corner of
both active triangles, no active triangle passes the test for the guess (-1, -1, -1), and
the guess is strictly nearer to the anchor than to every other label; the claim asks for
the coordinate of the anchor without re-homing, but the call re-homes to label 1 itself,
into the same state, and uses up every fuel. -/
theorem getBoundaryPoint_convex_corner_loops :
    (∃ tri ∈ edgePoint.trianglesNew_, (1 : label) ∈ tri) ∧
    (∀ tri ∈ edgePoint.trianglesNew_, testTriangle edgeTopo ⟨-1, -1, -1⟩ 1 tri = .ok none) ∧
    edgeTopo.getBoundaryPointCoord 1 = some ⟨0, 0, 0⟩ ∧
    (∀ tri ∈ edgePoint.trianglesNew_, ∀ l ∈ tri, l ≠ 1 → ∃ cl,
      edgeTopo.getBoundaryPointCoord l = some cl ∧
        magSqr (point.sub ⟨-1, -1, -1⟩ ⟨0, 0, 0⟩) < magSqr (point.sub ⟨-1, -1, -1⟩ cl)) ∧
    ∀ fuel, getBoundaryPoint fuel edgeTopo edgePoint ⟨-1, -1, -1⟩ 1 = .error .outOfFuel := by
  refine ⟨by decide!, by decide!, rfl, ?_, ?_⟩
  · intro tri htri l hl hne
    have htri2 : tri = [0, 1, 2] ∨ tri = [0, 1, 3] := by
      simpa [edgePoint, boundaryPoint.new] using htri
    have h0 : ∃ cl, edgeTopo.getBoundaryPointCoord 0 = some cl ∧
        magSqr (point.sub ⟨-1, -1, -1⟩ ⟨0, 0, 0⟩) < magSqr (point.sub ⟨-1, -1, -1⟩ cl) :=
      ⟨⟨1, 0, 0⟩, rfl, by decide!⟩
    have h2 : ∃ cl, edgeTopo.getBoundaryPointCoord 2 = some cl ∧
        magSqr (point.sub ⟨-1, -1, -1⟩ ⟨0, 0, 0⟩) < magSqr (point.sub ⟨-1, -1, -1⟩ cl) :=
      ⟨⟨0, 1, 0⟩, rfl, by decide!⟩
    have h3 : ∃ cl, edgeTopo.getBoundaryPointCoord 3 = some cl ∧
        magSqr (point.sub ⟨-1, -1, -1⟩ ⟨0, 0, 0⟩) < magSqr (point.sub ⟨-1, -1, -1⟩ cl) :=
      ⟨⟨0, 0, 1⟩, rfl, by decide!⟩
    rcases htri2 with rfl | rfl
    · have hl2 : l = 0 ∨ l = 1 ∨ l = 2 := by simpa using hl
      rcases hl2 with rfl | rfl | rfl
      · exact h0
      · exact absurd rfl hne
      · exact h2
    · have hl2 : l = 0 ∨ l = 1 ∨ l = 3 := by simpa using hl
      rcases hl2 with rfl | rfl | rfl
      · exact h0
      · exact absurd rfl hne
      · exact h3
  · intro fuel
    induction fuel with
    | zero => rfl
    | succ n ih =>
      have hstep := @getBoundaryPoint_concave n edgeTopo edgePoint ⟨-1, -1, -1⟩ 1 ⟨0, 0, 0⟩
        (3, 1) [(6, 0)] edgePoint (by decide!) rfl (by decide!) (by decide!) rfl
      rw [hstep]
      exact ih

/-- C12, the code at a failing input: for the active triangle {0, 1, 2} of the square patch
and the anchor 0, a corner of it, the search passes the labels 0 and 2, not the two other
labels 1 and 2; the tested triangle (0, 0, 2) is degenerate, not the active triangle, and
the test fails for the centroid of the active triangle, which the test of (0, 1, 2)
accepts. -/
theorem testLabels_anchor_first :
    [0, 1, 2] ∈ squarePoint.trianglesNew_ ∧ (0 : label) ∈ ([0, 1, 2] : labelSet) ∧
    testLabels [0, 1, 2] = .ok (0, 2) ∧
    testTriangle squareTopo ⟨2/3, 1/3, 0⟩ 0 [0, 1, 2] =
      isOnTriangle squareTopo 0 2 ⟨2/3, 1/3, 0⟩ 0 ∧
    ¬ nonDegenerate ⟨0, 0, 0⟩ ⟨0, 0, 0⟩ ⟨1, 1, 0⟩ ∧
    nonDegenerate ⟨0, 0, 0⟩ ⟨1, 0, 0⟩ ⟨1, 1, 0⟩ ∧
    testTriangle squareTopo ⟨2/3, 1/3, 0⟩ 0 [0, 1, 2] = .ok none ∧
    isOnTriangle squareTopo 1 2 ⟨2/3, 1/3, 0⟩ 0 = .ok (some ⟨2/3, 1/3, 0⟩) :=
  ⟨by decide!, by decide!, testLabels_triple 0 1 2, testTriangle_eq rfl rfl,
   by unfold nonDegenerate; decide!, by unfold nonDegenerate; decide!, by decide!, by decide!⟩

set_option maxHeartbeats 1000000 in
/-- C13, the code at a failing input: in the right triangle (0,0,0), (1,0,0), (0,1,0) the
point (-1/4, 1/4, 1) has the orthogonal projection (-1/4, 1/4, 0); `isOnTriangle` returns
true with the output (1/4, 1/4, 0), and the difference of the point and the output is not
orthogonal to the edge vector `p2 - p1`, so the output is not the projection. -/
theorem isOnTriangle_output_not_projection :
    nonDegenerate ⟨0, 0, 0⟩ ⟨1, 0, 0⟩ ⟨0, 1, 0⟩ ∧
    isProjection ⟨0, 0, 0⟩ ⟨1, 0, 0⟩ ⟨0, 1, 0⟩ ⟨-1/4, 1/4, 1⟩ ⟨-1/4, 1/4, 0⟩ (-1/4) (1/4) ∧
    isOnTriangle cornerTopo 0 2 ⟨-1/4, 1/4, 1⟩ 1 = .ok (some ⟨1/4, 1/4, 0⟩) ∧
    point.dot (point.sub ⟨-1/4, 1/4, 1⟩ ⟨1/4, 1/4, 0⟩) (point.sub ⟨1, 0, 0⟩ ⟨0, 0, 0⟩) ≠ 0 ∧
    ¬ ∃ b c, isProjection ⟨0, 0, 0⟩ ⟨1, 0, 0⟩ ⟨0, 1, 0⟩ ⟨-1/4, 1/4, 1⟩ ⟨1/4, 1/4, 0⟩ b c := by
  refine ⟨by unfold nonDegenerate; decide!, by unfold isProjection; decide!, by decide!,
    by decide!, ?_⟩
  rintro ⟨b, c, -, hu, -⟩
  exact absurd hu (by decide!)

/-! ## The convex case and the frame of a single call -/

/-- Counterexample to C14: the object was constructed with the point (0, 0, 2) and the
directory stores (0, 0, 1) for its label 1; the call returns through the convex case with
the point (0, 0, 1) of the directory, not with the point given at construction. -/
theorem getBoundaryPoint_convex_not_initialPoint :
    mapBoundaryFeaturePts apexTopo { apexPoint with initialPoint_ := ⟨0, 0, 2⟩ } ⟨0, -1, 3⟩ 1 =
      .ok [] ∧
    distLoop apexTopo ⟨0, -1, 3⟩
      (extremPoint ({ apexPoint with initialPoint_ := ⟨0, 0, 2⟩ } : boundaryPoint).trianglesNew_)
      [] = .ok [(10, 3), (11, 4), (13, 5)] ∧
    magSqr (point.sub ⟨0, -1, 3⟩ ⟨0, 0, 1⟩) < 10 ∧
    getBoundaryPoint 1 apexTopo { apexPoint with initialPoint_ := ⟨0, 0, 2⟩ } ⟨0, -1, 3⟩ 1 =
      .ok (⟨0, 0, 1⟩, { apexPoint with initialPoint_ := ⟨0, 0, 2⟩ }) ∧
    ({ apexPoint with initialPoint_ := ⟨0, 0, 2⟩ } : boundaryPoint).getboundaryPoint =
      ⟨0, 0, 2⟩ ∧
    (⟨0, 0, 1⟩ : point) ≠ ⟨0, 0, 2⟩ :=
  ⟨by decide!, by decide!, by decide!, by decide!, rfl, by decide!⟩

/-- C14, amended: whenever the call returns through the convex case (the search is empty
and the distance to the coordinate of the anchor is below the first key of `dist`), the
returned point is the coordinate that the directory stores for the anchor, whatever point
the object was constructed with. -/
theorem getBoundaryPoint_convex_returns_directory (fuel : Nat) (topo : blockMeshTopology)
    (self : boundaryPoint) (g : point) (ref : label) (c : point) (first : scalar × label)
    (rest : List (scalar × label)) (q : point)
    (h : mapBoundaryFeaturePts topo self g ref = .ok [])
    (hc : topo.getBoundaryPointCoord ref = some c)
    (hd : distLoop topo g (extremPoint self.trianglesNew_) [] = .ok (first :: rest))
    (hlt : magSqr (point.sub g c) < first.1) :
    getBoundaryPoint (fuel + 1) topo { self with initialPoint_ := q } g ref =
      .ok (c, { self with initialPoint_ := q }) :=
  @getBoundaryPoint_convex fuel topo { self with initialPoint_ := q } g ref c first rest h hc hd
    hlt

/-- Witness of C14, amended: the call of the counterexample. -/
theorem getBoundaryPoint_convex_returns_directory_witness :
    mapBoundaryFeaturePts apexTopo apexPoint ⟨0, -1, 3⟩ 1 = .ok [] ∧
    distLoop apexTopo ⟨0, -1, 3⟩ (extremPoint apexPoint.trianglesNew_) [] =
      .ok [(10, 3), (11, 4), (13, 5)] ∧
    getBoundaryPoint (0 + 1) apexTopo { apexPoint with initialPoint_ := ⟨0, 0, 2⟩ } ⟨0, -1, 3⟩ 1 =
      .ok (⟨0, 0, 1⟩, { apexPoint with initialPoint_ := ⟨0, 0, 2⟩ }) :=
  ⟨by decide!, by decide!,
   getBoundaryPoint_convex_returns_directory 0 apexTopo apexPoint ⟨0, -1, 3⟩ 1 ⟨0, 0, 1⟩ (10, 3)
     [(11, 4), (13, 5)] ⟨0, 0, 2⟩ (by decide!) rfl (by decide!) (by decide!)⟩

/-- C15: a call that returns after a successful facet search, or through the convex case,
leaves the active triangles as they were; and when the active triangles after a call
differ from those before, the call went through the concave step: the search was empty,
the convex test failed, and `changeBoundaryPointLinkedFaces` replaced the active triangles
by those owned by the first label of `dist` before the recursive call returned. -/
theorem getBoundaryPoint_active_unchanged (fuel : Nat) (topo : blockMeshTopology)
    (self : boundaryPoint) (g : point) (ref : label) (pt : point) (s2 : boundaryPoint)
    (h : getBoundaryPoint (fuel + 1) topo self g ref = .ok (pt, s2)) :
    ((∃ hit rest, mapBoundaryFeaturePts topo self g ref = .ok (hit :: rest)) →
      s2.trianglesNew_ = self.trianglesNew_) ∧
    ((mapBoundaryFeaturePts topo self g ref = .ok [] ∧ ∃ c first rest,
        topo.getBoundaryPointCoord ref = some c ∧
        distLoop topo g (extremPoint self.trianglesNew_) [] = .ok (first :: rest) ∧
        magSqr (point.sub g c) < first.1) →
      s2.trianglesNew_ = self.trianglesNew_) ∧
    (s2.trianglesNew_ ≠ self.trianglesNew_ →
      mapBoundaryFeaturePts topo self g ref = .ok [] ∧ ∃ c first rest nb,
        topo.getBoundaryPointCoord ref = some c ∧
        distLoop topo g (extremPoint self.trianglesNew_) [] = .ok (first :: rest) ∧
        ¬ magSqr (point.sub g c) < first.1 ∧
        topo.getPointTopoPtr first.2 = some nb ∧
        getBoundaryPoint fuel topo { self with trianglesNew_ := nb.getTrianglesLinked } g
          first.2 = .ok (pt, s2)) := by
  refine ⟨?_, ?_, ?_⟩
  · rintro ⟨hit, rest, hm⟩
    rw [getBoundaryPoint_hit fuel hm] at h
    simp only [Except.ok.injEq, Prod.mk.injEq] at h
    rw [← h.2]
  · rintro ⟨hm, c, first, rest, hc, hd, hlt⟩
    rw [getBoundaryPoint_convex fuel hm hc hd hlt] at h
    simp only [Except.ok.injEq, Prod.mk.injEq] at h
    rw [← h.2]
  · intro hne
    cases hm : mapBoundaryFeaturePts topo self g ref with
    | error e => simp [getBoundaryPoint, hm] at h
    | ok m =>
      cases m with
      | cons hit rest =>
        rw [getBoundaryPoint_hit fuel hm] at h
        simp only [Except.ok.injEq, Prod.mk.injEq] at h
        exact absurd (by rw [← h.2]) hne
      | nil =>
        cases hc : topo.getBoundaryPointCoord ref with
        | none => simp [getBoundaryPoint, hm, coordOf, hc] at h
        | some c =>
          cases hd : distLoop topo g (extremPoint self.trianglesNew_) [] with
          | error e => simp [getBoundaryPoint, hm, coordOf, hc, hd] at h
          | ok d =>
            cases d with
            | nil => simp [getBoundaryPoint, hm, coordOf, hc, hd] at h
            | cons first rest =>
              by_cases hlt : magSqr (point.sub g c) < first.1
              · rw [getBoundaryPoint_convex fuel hm hc hd hlt] at h
                simp only [Except.ok.injEq, Prod.mk.injEq] at h
                exact absurd (by rw [← h.2]) hne
              · cases hnb : topo.getPointTopoPtr first.2 with
                | none =>
                  simp [getBoundaryPoint, hm, coordOf, hc, hd, hlt,
                    changeBoundaryPointLinkedFaces, trianglesOf, hnb] at h
                | some nb =>
                  rw [getBoundaryPoint_concave fuel hm hc hd hlt hnb] at h
                  exact ⟨rfl, c, first, rest, nb, rfl, rfl, hlt, hnb, h⟩

/-- Witness of C15: the call on the object of vertex 2 of the ridge that re-homes to
vertex 3; its active triangles change, and the call went through the concave step. -/
theorem getBoundaryPoint_active_unchanged_witness :
    getBoundaryPoint (1 + 1) ridgeTopo (boundaryPoint.new [[1, 2, 3]] ⟨0, 0, 0⟩) ⟨1/4, 1, 1/2⟩ 2 =
      .ok (⟨1/8, 7/8, 1/2⟩,
        { triangles_ := [[1, 2, 3]], trianglesNew_ := [[1, 3, 4]], initialPoint_ := ⟨0, 0, 0⟩ }) ∧
    (mapBoundaryFeaturePts ridgeTopo (boundaryPoint.new [[1, 2, 3]] ⟨0, 0, 0⟩) ⟨1/4, 1, 1/2⟩ 2 =
        .ok [] ∧ ∃ c first rest nb,
      ridgeTopo.getBoundaryPointCoord 2 = some c ∧
      distLoop ridgeTopo ⟨1/4, 1, 1/2⟩
        (extremPoint (boundaryPoint.new [[1, 2, 3]] ⟨0, 0, 0⟩).trianglesNew_) [] =
          .ok (first :: rest) ∧
      ¬ magSqr (point.sub ⟨1/4, 1, 1/2⟩ c) < first.1 ∧
      ridgeTopo.getPointTopoPtr first.2 = some nb ∧
      getBoundaryPoint 1 ridgeTopo
        { boundaryPoint.new [[1, 2, 3]] ⟨0, 0, 0⟩ with trianglesNew_ := nb.getTrianglesLinked }
        ⟨1/4, 1, 1/2⟩ first.2 =
          .ok (⟨1/8, 7/8, 1/2⟩,
            { triangles_ := [[1, 2, 3]], trianglesNew_ := [[1, 3, 4]],
              initialPoint_ := ⟨0, 0, 0⟩ })) :=
  have h : getBoundaryPoint (1 + 1) ridgeTopo (boundaryPoint.new [[1, 2, 3]] ⟨0, 0, 0⟩)
      ⟨1/4, 1, 1/2⟩ 2 = .ok (⟨1/8, 7/8, 1/2⟩,
        { triangles_ := [[1, 2, 3]], trianglesNew_ := [[1, 3, 4]], initialPoint_ := ⟨0, 0, 0⟩ }) := by
    decide!
  ⟨h, (getBoundaryPoint_active_unchanged 1 ridgeTopo (boundaryPoint.new [[1, 2, 3]] ⟨0, 0, 0⟩)
    ⟨1/4, 1, 1/2⟩ 2 _ _ h).2.2 (by decide!)⟩

/-- C16: when the anchor is a label of some active triangle and no active triangle passes
the projection test, the label set of the minimum contains the anchor, the first key of
`dist` is at most the distance to the coordinate of the anchor, the strict convex test is
false, and the call is the concave step: it re-homes to the first label of `dist`. -/
theorem getBoundaryPoint_anchor_in_fan_rehomes (fuel : Nat) (topo : blockMeshTopology)
    (self : boundaryPoint) (g : point) (ref : label) (c : point)
    (hin : ∃ tri ∈ self.trianglesNew_, ref ∈ tri)
    (hnone : ∀ tri ∈ self.trianglesNew_, testTriangle topo g ref tri = .ok none)
    (hc : topo.getBoundaryPointCoord ref = some c)
    (hk : knownLabels topo self.trianglesNew_) :
    ref ∈ extremPoint self.trianglesNew_ ∧
    ∃ first rest, distLoop topo g (extremPoint self.trianglesNew_) [] = .ok (first :: rest) ∧
      first.1 ≤ magSqr (point.sub g c) ∧ ¬ magSqr (point.sub g c) < first.1 ∧
      getBoundaryPoint (fuel + 1) topo self g ref =
        changeBoundaryPointLinkedFaces (getBoundaryPoint fuel topo) topo self first.2 g := by
  obtain ⟨tri0, htri0, href⟩ := hin
  obtain ⟨first, rest, cn, hd, -, -, -, hmin⟩ :=
    @distLoop_first topo self.trianglesNew_ g
      (fun tri htri l hl => Option.isSome_iff_exists.mp ((hk tri htri).2 l hl))
      ⟨tri0, htri0, (hk tri0 htri0).1⟩
  have hle : first.1 ≤ magSqr (point.sub g c) := hmin tri0 htri0 ref href c hc
  refine ⟨(mem_extremPoint _ _).mpr ⟨tri0, htri0, href⟩, first, rest, hd, hle, not_lt.mpr hle, ?_⟩
  simp only [getBoundaryPoint, mapBoundaryFeaturePts_eq_nil hnone, coordOf, hc, hd,
    if_neg (not_lt.mpr hle)]

/-- Witness of C16: the object of vertex 1 of the one-triangle mesh and the guess
(-1, -1, 0). -/
theorem getBoundaryPoint_anchor_in_fan_rehomes_witness :
    (∃ tri ∈ cornerPoint.trianglesNew_, (1 : label) ∈ tri) ∧
    (∀ tri ∈ cornerPoint.trianglesNew_, testTriangle cornerTopo ⟨-1, -1, 0⟩ 1 tri = .ok none) ∧
    knownLabels cornerTopo cornerPoint.trianglesNew_ ∧
    (1 ∈ extremPoint cornerPoint.trianglesNew_ ∧
    ∃ first rest,
      distLoop cornerTopo ⟨-1, -1, 0⟩ (extremPoint cornerPoint.trianglesNew_) [] =
        .ok (first :: rest) ∧
      first.1 ≤ magSqr (point.sub ⟨-1, -1, 0⟩ ⟨0, 0, 0⟩) ∧
      ¬ magSqr (point.sub ⟨-1, -1, 0⟩ ⟨0, 0, 0⟩) < first.1 ∧
      getBoundaryPoint (0 + 1) cornerTopo cornerPoint ⟨-1, -1, 0⟩ 1 =
        changeBoundaryPointLinkedFaces (getBoundaryPoint 0 cornerTopo) cornerTopo cornerPoint
          first.2 ⟨-1, -1, 0⟩) :=
  ⟨by decide!, by decide!, by unfold knownLabels; decide!,
   getBoundaryPoint_anchor_in_fan_rehomes 0 cornerTopo cornerPoint ⟨-1, -1, 0⟩ 1 ⟨0, 0, 0⟩
     (by decide!) (by decide!) rfl (by unfold knownLabels; decide!)⟩

/-! ## The output of a successful projection test -/

theorem onTriangle_of_isOnTriangleAt {p1 p2 p3 p out : point}
    (h : isOnTriangleAt p1 p2 p3 p = some out) : onTriangle p1 p2 p3 out := by
  simp only [isOnTriangleAt] at h
  split at h
  · simp at h
  · split at h
    · next hcond =>
      simp only [Option.some.injEq] at h
      obtain ⟨ha, -, hl, -, hb, -⟩ := hcond
      exact ⟨_, _, _, ha, hb, hl, by ring, h.symm⟩
    · simp at h

theorem onTriangle_of_isOnTriangle {topo : blockMeshTopology} {refP2 refP3 ref : label}
    {p out : point} (h : isOnTriangle topo refP2 refP3 p ref = .ok (some out)) :
    ∃ p1 p2 p3, topo.getBoundaryPointCoord ref = some p1 ∧
      topo.getBoundaryPointCoord refP2 = some p2 ∧
      topo.getBoundaryPointCoord refP3 = some p3 ∧ onTriangle p1 p2 p3 out := by
  cases h1 : topo.getBoundaryPointCoord ref with
  | none => simp [isOnTriangle, coordOf, h1, bind, Except.bind] at h
  | some p1 =>
    cases h2 : topo.getBoundaryPointCoord refP2 with
    | none => simp [isOnTriangle, coordOf, h1, h2, bind, Except.bind] at h
    | some p2 =>
      cases h3 : topo.getBoundaryPointCoord refP3 with
      | none => simp [isOnTriangle, coordOf, h1, h2, h3, bind, Except.bind] at h
      | some p3 =>
        rw [isOnTriangle_eq_at p h1 h2 h3] at h
        simp only [Except.ok.injEq] at h
        exact ⟨p1, p2, p3, rfl, rfl, rfl, onTriangle_of_isOnTriangleAt h⟩

/-- The result of the facet search is the map filled with the successful tests. -/
theorem mapBoundaryFeaturePts_eq_insertAll {topo : blockMeshTopology} {self : boundaryPoint}
    {g : point} {ref : label} {m : List (scalar × point)}
    (h : mapBoundaryFeaturePts topo self g ref = .ok m) :
    m = insertAll (hitList topo g ref self.trianglesNew_) [] := by
  have hok := mapBoundaryFeaturePtsLoop_tests_ok h
  have h2 := mapBoundaryFeaturePtsLoop_ok topo g ref self.trianglesNew_ [] hok
  rw [mapBoundaryFeaturePts, h2] at h
  simp only [Except.ok.injEq] at h
  exact h.symm

/-- C17: whenever `isOnTriangle` returns true, its output is a convex combination of the
coordinates of (ref, refP2, refP3), with coefficients that are not negative and add up to
one; hence every point that the call returns from a successful facet search lies on the
closed triangle spanned by the coordinates of the anchor and of the two labels passed for
some active triangle. -/
theorem isOnTriangle_output_onTriangle (topo : blockMeshTopology) (g : point) (ref : label) :
    (∀ refP2 refP3 out, isOnTriangle topo refP2 refP3 g ref = .ok (some out) →
      ∃ p1 p2 p3, topo.getBoundaryPointCoord ref = some p1 ∧
        topo.getBoundaryPointCoord refP2 = some p2 ∧
        topo.getBoundaryPointCoord refP3 = some p3 ∧
        ∃ alpha beta lambda : scalar, 0 ≤ alpha ∧ 0 ≤ beta ∧ 0 ≤ lambda ∧
          alpha + beta + lambda = 1 ∧ out = combination alpha beta lambda p1 p2 p3) ∧
    (∀ fuel self hit rest, mapBoundaryFeaturePts topo self g ref = .ok (hit :: rest) →
      getBoundaryPoint (fuel + 1) topo self g ref = .ok (hit.2, self) ∧
      ∃ tri ∈ self.trianglesNew_, ∃ refP2 refP3 p1 p2 p3,
        testLabels tri = .ok (refP2, refP3) ∧
        topo.getBoundaryPointCoord ref = some p1 ∧
        topo.getBoundaryPointCoord refP2 = some p2 ∧
        topo.getBoundaryPointCoord refP3 = some p3 ∧ onTriangle p1 p2 p3 hit.2) := by
  refine ⟨fun refP2 refP3 out h => onTriangle_of_isOnTriangle h, ?_⟩
  intro fuel self hit rest hm
  refine ⟨getBoundaryPoint_hit fuel hm, ?_⟩
  have hmem : hit ∈ hitList topo g ref self.trianglesNew_ := by
    have h1 : hit ∈ insertAll (hitList topo g ref self.trianglesNew_) [] := by
      rw [← mapBoundaryFeaturePts_eq_insertAll hm]
      exact List.mem_cons_self _ _
    exact (mem_insertAll h1).resolve_right (by simp)
  obtain ⟨tri, htri, htest, -⟩ := mem_hitList.mp hmem
  rw [testTriangle_eq_testLabels] at htest
  cases hl : testLabels tri with
  | error e => simp [hl] at htest
  | ok be =>
    simp only [hl] at htest
    obtain ⟨p1, p2, p3, h1, h2, h3, hon⟩ := onTriangle_of_isOnTriangle htest
    exact ⟨tri, htri, be.1, be.2, p1, p2, p3, hl, h1, h2, h3, hon⟩

/-- Witness of C17: the guess (1/4, 1/4, 1/8) in the two-triangle mesh; the returned point
(1/4, 1/4, 0) lies on the triangle of the labels 1, 0 and 2. -/
theorem isOnTriangle_output_onTriangle_witness :
    isOnTriangle edgeTopo 0 2 ⟨1/4, 1/4, 1/8⟩ 1 = .ok (some ⟨1/4, 1/4, 0⟩) ∧
    (∃ p1 p2 p3, edgeTopo.getBoundaryPointCoord 1 = some p1 ∧
      edgeTopo.getBoundaryPointCoord 0 = some p2 ∧
      edgeTopo.getBoundaryPointCoord 2 = some p3 ∧
      ∃ alpha beta lambda : scalar, 0 ≤ alpha ∧ 0 ≤ beta ∧ 0 ≤ lambda ∧
        alpha + beta + lambda = 1 ∧
        (⟨1/4, 1/4, 0⟩ : point) = combination alpha beta lambda p1 p2 p3) :=
  have h : isOnTriangle edgeTopo 0 2 ⟨1/4, 1/4, 1/8⟩ 1 = .ok (some ⟨1/4, 1/4, 0⟩) := by decide!
  ⟨h, (isOnTriangle_output_onTriangle edgeTopo ⟨1/4, 1/4, 1/8⟩ 1).1 0 2 ⟨1/4, 1/4, 0⟩ h⟩

/-! ## Ties -/

theorem head_mapInsert_cons {V : Type} (k : scalar) (v : V) (h : scalar × V)
    (t : List (scalar × V)) :
    ∃ t2, mapInsert k v (h :: t) = (if k < h.1 then (k, v) else h) :: t2 := by
  unfold mapInsert
  split_ifs with h1 h2
  · exact ⟨h :: t, rfl⟩
  · exact ⟨t, rfl⟩
  · exact ⟨mapInsert k v t, rfl⟩

theorem insertAll_append_singleton {V : Type} (kvs : List (scalar × V)) (e : scalar × V)
    (m : List (scalar × V)) :
    insertAll (kvs ++ [e]) m = mapInsert e.1 e.2 (insertAll kvs m) := by
  simp [insertAll, List.foldl_append]

/-- The first entry of a map filled from the empty map is the first inserted entry among
those with the least key: every entry inserted before it has a greater key and every
entry inserted after it has a key that is not smaller. -/
theorem head_insertAll_split {V : Type} (kvs : List (scalar × V)) :
    ∀ first rest, insertAll kvs [] = first :: rest →
      ∃ pre post, kvs = pre ++ first :: post ∧ (∀ e ∈ pre, first.1 < e.1) ∧
        ∀ e ∈ post, first.1 ≤ e.1 := by
  induction kvs using List.reverseRecOn with
  | nil =>
    intro first rest h
    simp [insertAll] at h
  | append_singleton l a ih =>
    intro first rest h
    rw [insertAll_append_singleton] at h
    cases hl : insertAll l [] with
    | nil =>
      have hnil : l = [] := by
        by_contra hne
        exact insertAll_ne_nil [] hne hl
      subst hnil
      rw [hl] at h
      simp only [mapInsert, List.cons.injEq] at h
      refine ⟨[], [], ?_, by simp, by simp⟩
      rw [← h.1]
    | cons hd tl =>
      rw [hl] at h
      obtain ⟨t2, ht2⟩ := head_mapInsert_cons a.1 a.2 hd tl
      rw [ht2] at h
      simp only [List.cons.injEq] at h
      obtain ⟨hmem, hmin⟩ := head_insertAll hl
      by_cases hlt : a.1 < hd.1
      · rw [if_pos hlt] at h
        refine ⟨l, [], ?_, ?_, by simp⟩
        · rw [← h.1]
        · intro e he
          rw [← h.1]
          exact lt_of_lt_of_le hlt (hmin e he)
      · rw [if_neg hlt] at h
        obtain ⟨pre, post, hsplit, hpre, hpost⟩ := ih hd tl hl
        refine ⟨pre, post ++ [a], ?_, ?_, ?_⟩
        · rw [← h.1, hsplit]
          simp
        · intro e he
          rw [← h.1]
          exact hpre e he
        · intro e he
          rw [← h.1]
          rcases List.mem_append.mp he with he | he
          · exact hpost e he
          · rw [List.mem_singleton.mp he]
            exact not_lt.mp hlt

theorem pairwise_setInsert (a : label) {s : labelSet} (h : s.Pairwise (fun x y => x < y)) :
    (setInsert a s).Pairwise (fun x y => x < y) := by
  induction s with
  | nil => simp [setInsert]
  | cons b bs ih =>
    rw [List.pairwise_cons] at h
    unfold setInsert
    split_ifs with h1 h2
    · refine List.pairwise_cons.mpr ⟨?_, List.pairwise_cons.mpr h⟩
      intro x hx
      rcases List.mem_cons.mp hx with hx | hx
      · rw [hx]; exact h1
      · exact lt_trans h1 (h.1 x hx)
    · exact List.pairwise_cons.mpr h
    · refine List.pairwise_cons.mpr ⟨?_, ih h.2⟩
      intro x hx
      rcases (mem_setInsert x a bs).mp hx with hx | hx
      · rw [hx]
        exact lt_of_le_of_ne (not_lt.mp h1) (Ne.symm h2)
      · exact h.1 x hx

theorem pairwise_foldl_setInsert (tri : labelSet) {acc : labelSet}
    (h : acc.Pairwise (fun x y => x < y)) :
    (tri.foldl (fun acc2 pt => setInsert pt acc2) acc).Pairwise (fun x y => x < y) := by
  induction tri generalizing acc with
  | nil => exact h
  | cons a as ih => exact ih (pairwise_setInsert a h)

theorem pairwise_extremPoint_aux (tris : triangleSet) {acc : labelSet}
    (h : acc.Pairwise (fun x y => x < y)) :
    (tris.foldl (fun acc tri => tri.foldl (fun acc2 pt => setInsert pt acc2) acc) acc).Pairwise
      (fun x y => x < y) := by
  induction tris generalizing acc with
  | nil => exact h
  | cons t ts ih => exact ih (pairwise_foldl_setInsert t h)

/-- The set `extremPoint` is visited in ascending order of the labels. -/
theorem pairwise_extremPoint (tris : triangleSet) :
    (extremPoint tris).Pairwise (fun x y => x < y) :=
  pairwise_extremPoint_aux tris List.Pairwise.nil

theorem pairwise_labelDistList (topo : blockMeshTopology) (g : point) {ls : labelSet}
    (h : ls.Pairwise (fun x y => x < y)) :
    (labelDistList topo g ls).Pairwise (fun a b => a.2 < b.2) := by
  unfold labelDistList
  refine List.Pairwise.filterMap _ ?_ h
  intro a a2 haa b hb b2 hb2
  simp only [Option.mem_def] at hb hb2
  split at hb
  · split at hb2
    · simp only [Option.some.injEq] at hb hb2
      rw [← hb, ← hb2]
      exact haa
    · simp at hb2
  · simp at hb

/-- Among the labels at the least distance the first entry of `dist` holds the smallest. -/
theorem distLoop_first_smallest {topo : blockMeshTopology} {tris : triangleSet} {g : point}
    {first : scalar × label} {rest : List (scalar × label)}
    (hk : ∀ tri ∈ tris, ∀ l ∈ tri, ∃ cl, topo.getBoundaryPointCoord l = some cl)
    (hd : distLoop topo g (extremPoint tris) [] = .ok (first :: rest)) :
    ∀ tri ∈ tris, ∀ l ∈ tri, ∀ cl, topo.getBoundaryPointCoord l = some cl →
      magSqr (point.sub g cl) = first.1 → first.2 ≤ l := by
  have hk2 : ∀ l ∈ extremPoint tris, ∃ c, topo.getBoundaryPointCoord l = some c := by
    intro l hl
    obtain ⟨tri, htri, hltri⟩ := (mem_extremPoint l tris).mp hl
    exact hk tri htri l hltri
  rw [distLoop_ok topo g (extremPoint tris) [] hk2] at hd
  simp only [Except.ok.injEq] at hd
  obtain ⟨pre, post, hsplit, hpre, -⟩ := head_insertAll_split _ first rest hd
  have hsorted := pairwise_labelDistList topo g (pairwise_extremPoint tris)
  rw [hsplit, List.pairwise_append] at hsorted
  obtain ⟨-, hright, -⟩ := hsorted
  rw [List.pairwise_cons] at hright
  intro tri htri l hltri cl hcl hkey
  have hmem : (magSqr (point.sub g cl), l) ∈ labelDistList topo g (extremPoint tris) :=
    mem_labelDistList.mpr ⟨(mem_extremPoint l tris).mpr ⟨tri, htri, hltri⟩, cl, hcl, rfl⟩
  rw [hsplit] at hmem
  rcases List.mem_append.mp hmem with hmem | hmem
  · exact absurd hkey (ne_of_gt (hpre _ hmem))
  · rcases List.mem_cons.mp hmem with hmem | hmem
    · rw [← hmem]
    · exact le_of_lt (hright.1 _ hmem)

/-- The first entry of the result of the facet search comes from the first active
triangle, in iteration order, among those whose output is at the least distance. -/
theorem mapBoundaryFeaturePts_first_hit {topo : blockMeshTopology} {self : boundaryPoint}
    {g : point} {ref : label} {first : scalar × point} {rest : List (scalar × point)}
    (hm : mapBoundaryFeaturePts topo self g ref = .ok (first :: rest)) :
    ∃ pre tri post, self.trianglesNew_ = pre ++ tri :: post ∧
      testTriangle topo g ref tri = .ok (some first.2) ∧
      first.1 = magSqr (point.sub g first.2) ∧
      (∀ t ∈ pre, ∀ q2, testTriangle topo g ref t = .ok (some q2) →
        first.1 < magSqr (point.sub g q2)) ∧
      ∀ t ∈ post, ∀ q2, testTriangle topo g ref t = .ok (some q2) →
        first.1 ≤ magSqr (point.sub g q2) := by
  have hins := (mapBoundaryFeaturePts_eq_insertAll hm).symm
  obtain ⟨pre2, post2, hsplit, hpre, hpost⟩ := head_insertAll_split _ first rest hins
  have hsplit2 := hsplit
  unfold hitList at hsplit2
  obtain ⟨l1, l2, hl, hl1, hl2⟩ := List.filterMap_eq_append_iff.mp hsplit2
  obtain ⟨l2a, tri, l2b, hl2s, hnone, hsome, hl2b⟩ := List.filterMap_eq_cons_iff.mp hl2
  have hentry : ∀ t q2, testTriangle topo g ref t = .ok (some q2) →
      (fun tri => match testTriangle topo g ref tri with
        | .ok (some pt) => some (magSqr (point.sub g pt), pt)
        | _ => none) t = some (magSqr (point.sub g q2), q2) := by
    intro t q2 ht
    simp only [ht]
  have hfirst : testTriangle topo g ref tri = .ok (some first.2) ∧
      first.1 = magSqr (point.sub g first.2) := by
    split at hsome
    · next pt hpt =>
      simp only [Option.some.injEq] at hsome
      rw [← hsome]
      exact ⟨hpt, rfl⟩
    · simp at hsome
  refine ⟨l1 ++ l2a, tri, l2b, ?_, hfirst.1, hfirst.2, ?_, ?_⟩
  · rw [hl, hl2s, List.append_assoc]
  · intro t ht q2 hq2
    rcases List.mem_append.mp ht with ht | ht
    · have hmem : (magSqr (point.sub g q2), q2) ∈ pre2 := by
        rw [← hl1]
        exact List.mem_filterMap.mpr ⟨t, ht, hentry t q2 hq2⟩
      exact hpre _ hmem
    · have h1 := hnone t ht
      simp [hq2] at h1
  · intro t ht q2 hq2
    have hmem : (magSqr (point.sub g q2), q2) ∈ post2 := by
      rw [← hl2b]
      exact List.mem_filterMap.mpr ⟨t, ht, hentry t q2 hq2⟩
    exact hpost _ hmem

/-- C18: ties are decided by the order of insertion into the maps. In the concave step the
target of the re-homing is a label at the least distance from the guess and is not greater
than any label at that distance; after a successful search the returned point is the
output of the first active triangle, in iteration order, among those whose output is at
the least distance. -/
theorem tie_break_first_inserted (fuel : Nat) (topo : blockMeshTopology)
    (self : boundaryPoint) (g : point) (ref : label) (c : point)
    (hc : topo.getBoundaryPointCoord ref = some c)
    (hk : knownLabels topo self.trianglesNew_) :
    ((∀ tri ∈ self.trianglesNew_, testTriangle topo g ref tri = .ok none) →
      (∃ tri ∈ self.trianglesNew_, ∃ l ∈ tri, ∃ cl, topo.getBoundaryPointCoord l = some cl ∧
        magSqr (point.sub g cl) ≤ magSqr (point.sub g c)) →
      ∃ target ct, (∃ tri ∈ self.trianglesNew_, target ∈ tri) ∧
        topo.getBoundaryPointCoord target = some ct ∧
        (∀ tri ∈ self.trianglesNew_, ∀ l ∈ tri, ∀ cl, topo.getBoundaryPointCoord l = some cl →
          magSqr (point.sub g ct) ≤ magSqr (point.sub g cl) ∧
          (magSqr (point.sub g cl) = magSqr (point.sub g ct) → target ≤ l)) ∧
        getBoundaryPoint (fuel + 1) topo self g ref =
          changeBoundaryPointLinkedFaces (getBoundaryPoint fuel topo) topo self target g) ∧
    ((∃ tri ∈ self.trianglesNew_, ∃ q0, testTriangle topo g ref tri = .ok (some q0)) →
      ∃ pre tri post q, self.trianglesNew_ = pre ++ tri :: post ∧
        testTriangle topo g ref tri = .ok (some q) ∧
        getBoundaryPoint (fuel + 1) topo self g ref = .ok (q, self) ∧
        (∀ t ∈ pre, ∀ q2, testTriangle topo g ref t = .ok (some q2) →
          magSqr (point.sub g q) < magSqr (point.sub g q2)) ∧
        ∀ t ∈ post, ∀ q2, testTriangle topo g ref t = .ok (some q2) →
          magSqr (point.sub g q) ≤ magSqr (point.sub g q2)) := by
  have hkc : ∀ tri ∈ self.trianglesNew_, ∀ l ∈ tri, ∃ cl, topo.getBoundaryPointCoord l = some cl :=
    fun tri htri l hl => Option.isSome_iff_exists.mp ((hk tri htri).2 l hl)
  constructor
  · rintro hnone ⟨tri0, htri0, l0, hl0, cl0, hcl0, hle0⟩
    obtain ⟨first, rest, cn, hd, hfl, hcn, hkey, hmin⟩ :=
      @distLoop_first topo self.trianglesNew_ g hkc ⟨tri0, htri0, (hk tri0 htri0).1⟩
    have hnlt : ¬ magSqr (point.sub g c) < first.1 :=
      not_lt.mpr (le_trans (hmin tri0 htri0 l0 hl0 cl0 hcl0) hle0)
    refine ⟨first.2, cn, hfl, hcn, ?_, ?_⟩
    · intro tri htri l hl cl hcl
      refine ⟨hkey ▸ hmin tri htri l hl cl hcl, fun heq => ?_⟩
      exact distLoop_first_smallest hkc hd tri htri l hl cl hcl (heq.trans hkey.symm)
    · simp only [getBoundaryPoint, mapBoundaryFeaturePts_eq_nil hnone, coordOf, hc, hd,
        if_neg hnlt]
  · rintro ⟨tri0, htri0, q0, hq0⟩
    have hok := tests_ok_of_known g hc hk
    have hmap : mapBoundaryFeaturePts topo self g ref =
        .ok (insertAll (hitList topo g ref self.trianglesNew_) []) :=
      mapBoundaryFeaturePtsLoop_ok topo g ref self.trianglesNew_ [] hok
    have hmem0 : (magSqr (point.sub g q0), q0) ∈ hitList topo g ref self.trianglesNew_ :=
      mem_hitList.mpr ⟨tri0, htri0, hq0, rfl⟩
    cases hl : insertAll (hitList topo g ref self.trianglesNew_) [] with
    | nil => exact absurd hl (insertAll_ne_nil [] (List.ne_nil_of_mem hmem0))
    | cons first rest =>
      rw [hl] at hmap
      obtain ⟨pre, tri, post, hsplit, htest, hkey, hpre, hpost⟩ :=
        mapBoundaryFeaturePts_first_hit hmap
      exact ⟨pre, tri, post, first.2, hsplit, htest, getBoundaryPoint_hit fuel hmap,
        fun t ht q2 hq2 => hkey ▸ hpre t ht q2 hq2, fun t ht q2 hq2 => hkey ▸ hpost t ht q2 hq2⟩

/-- Witness of C18: in the two-triangle mesh the guess (1/4, 1/8, 1/8) projects onto both
active triangles at the same squared distance 1/64; the call returns the output
(1/4, 1/8, 0) of the first triangle {0, 1, 2}. -/
theorem tie_break_first_inserted_witness :
    knownLabels edgeTopo edgePoint.trianglesNew_ ∧
    testTriangle edgeTopo ⟨1/4, 1/8, 1/8⟩ 1 [0, 1, 2] = .ok (some ⟨1/4, 1/8, 0⟩) ∧
    testTriangle edgeTopo ⟨1/4, 1/8, 1/8⟩ 1 [0, 1, 3] = .ok (some ⟨1/4, 0, 1/8⟩) ∧
    magSqr (point.sub ⟨1/4, 1/8, 1/8⟩ ⟨1/4, 1/8, 0⟩) =
      magSqr (point.sub ⟨1/4, 1/8, 1/8⟩ ⟨1/4, 0, 1/8⟩) ∧
    getBoundaryPoint 1 edgeTopo edgePoint ⟨1/4, 1/8, 1/8⟩ 1 = .ok (⟨1/4, 1/8, 0⟩, edgePoint) ∧
    ∃ pre tri post q, edgePoint.trianglesNew_ = pre ++ tri :: post ∧
      testTriangle edgeTopo ⟨1/4, 1/8, 1/8⟩ 1 tri = .ok (some q) ∧
      getBoundaryPoint (0 + 1) edgeTopo edgePoint ⟨1/4, 1/8, 1/8⟩ 1 = .ok (q, edgePoint) ∧
      (∀ t ∈ pre, ∀ q2, testTriangle edgeTopo ⟨1/4, 1/8, 1/8⟩ 1 t = .ok (some q2) →
        magSqr (point.sub ⟨1/4, 1/8, 1/8⟩ q) < magSqr (point.sub ⟨1/4, 1/8, 1/8⟩ q2)) ∧
      ∀ t ∈ post, ∀ q2, testTriangle edgeTopo ⟨1/4, 1/8, 1/8⟩ 1 t = .ok (some q2) →
        magSqr (point.sub ⟨1/4, 1/8, 1/8⟩ q) ≤ magSqr (point.sub ⟨1/4, 1/8, 1/8⟩ q2) :=
  have h1 : testTriangle edgeTopo ⟨1/4, 1/8, 1/8⟩ 1 [0, 1, 2] = .ok (some ⟨1/4, 1/8, 0⟩) := by
    decide!
  ⟨by unfold knownLabels; decide!, h1, by decide!, by decide!, by decide!,
   (tie_break_first_inserted 0 edgeTopo edgePoint ⟨1/4, 1/8, 1/8⟩ 1 ⟨0, 0, 0⟩ rfl
     (by unfold knownLabels; decide!)).2 ⟨[0, 1, 2], by decide!, ⟨1/4, 1/8, 0⟩, h1⟩⟩

/-- A tie of labels, evaluated: anchored at label 1 above the triangle {3, 4, 5}, the guess
(1/2, 1/4, -1) is equally near to the labels 3 and 4; the map `dist` keeps label 3 and
the call re-homes to it. -/
theorem tie_of_labels_example :
    distLoop apexTopo ⟨1/2, 1/4, -1⟩ (extremPoint apexPoint.trianglesNew_) [] =
      .ok [(21/16, 3), (29/16, 5)] ∧
    apexTopo.getBoundaryPointCoord 4 = some ⟨1, 0, 0⟩ ∧
    magSqr (point.sub ⟨1/2, 1/4, -1⟩ ⟨1, 0, 0⟩) = 21/16 := by
  refine ⟨by decide!, rfl, by decide!⟩

/-! ## Safety of the nearest-label lookup -/

theorem knownLabels_of_labelsKnown {topo : blockMeshTopology} {tris : triangleSet}
    (hne : ∀ tri ∈ tris, tri ≠ []) (hk : labelsKnown topo tris) : knownLabels topo tris :=
  fun tri htri => ⟨hne tri htri, fun l hl => (hk tri htri l hl).1⟩

/-- One step in a directory whose triangle sets are closed: when the search is empty, the
map `dist` has a first entry, its label has an object in the directory, and the triangle
set of that object is again non-empty, with non-empty triangles and known labels. -/
theorem dist_nonempty_step {topo : blockMeshTopology} {self : boundaryPoint} {g : point}
    {ref : label} (hdir : directoryClosed topo)
    (hknown : labelsKnown topo self.trianglesNew_) (hne : self.trianglesNew_ ≠ [])
    (hm : mapBoundaryFeaturePts topo self g ref = .ok []) :
    ∃ first rest, distLoop topo g (extremPoint self.trianglesNew_) [] = .ok (first :: rest) ∧
      (topo.getBoundaryPointCoord first.2).isSome = true ∧
      ∃ nb, topo.getPointTopoPtr first.2 = some nb ∧ nb.getTrianglesLinked ≠ [] ∧
        (∀ tri ∈ nb.getTrianglesLinked, tri ≠ []) ∧ labelsKnown topo nb.getTrianglesLinked := by
  obtain ⟨tri0, htri0⟩ := List.exists_mem_of_ne_nil _ hne
  obtain ⟨r0, hr0⟩ := mapBoundaryFeaturePtsLoop_tests_ok hm tri0 htri0
  obtain ⟨first, rest, cn, hd, ⟨tri, htri, hfl⟩, hcn, -, -⟩ :=
    @distLoop_first topo self.trianglesNew_ g
      (fun tri htri l hl => Option.isSome_iff_exists.mp (hknown tri htri l hl).1)
      ⟨tri0, htri0, ne_nil_of_testTriangle_ok hr0⟩
  obtain ⟨nb, hnb⟩ := Option.isSome_iff_exists.mp (hknown tri htri _ hfl).2
  obtain ⟨h1, h2, h3⟩ := hdir _ nb hnb
  exact ⟨first, rest, hd, by rw [hcn]; rfl, nb, hnb, h1, h2, h3⟩

/-- In a directory whose triangle sets are closed a call never fails in a lookup: for every
fuel it returns or the fuel is used up. -/
theorem getBoundaryPoint_safe (topo : blockMeshTopology) (g : point)
    (hdir : directoryClosed topo) (fuel : Nat) :
    ∀ (self : boundaryPoint) (ref : label), self.trianglesNew_ ≠ [] →
      (∀ tri ∈ self.trianglesNew_, tri ≠ []) → labelsKnown topo self.trianglesNew_ →
      (topo.getBoundaryPointCoord ref).isSome = true →
      (∃ r, getBoundaryPoint fuel topo self g ref = .ok r) ∨
        getBoundaryPoint fuel topo self g ref = .error .outOfFuel := by
  induction fuel with
  | zero => exact fun _ _ _ _ _ _ => Or.inr rfl
  | succ n ih =>
    intro self ref hne htri hknown href
    obtain ⟨c, hc⟩ := Option.isSome_iff_exists.mp href
    have hk := knownLabels_of_labelsKnown htri hknown
    have hmap : mapBoundaryFeaturePts topo self g ref =
        .ok (insertAll (hitList topo g ref self.trianglesNew_) []) :=
      mapBoundaryFeaturePtsLoop_ok topo g ref self.trianglesNew_ [] (tests_ok_of_known g hc hk)
    cases hl : insertAll (hitList topo g ref self.trianglesNew_) [] with
    | cons hit rest =>
      rw [hl] at hmap
      exact Or.inl ⟨_, getBoundaryPoint_hit n hmap⟩
    | nil =>
      rw [hl] at hmap
      obtain ⟨first, rest, hd, hfc, nb, hnb, h1, h2, h3⟩ := dist_nonempty_step hdir hknown hne hmap
      by_cases hlt : magSqr (point.sub g c) < first.1
      · exact Or.inl ⟨_, getBoundaryPoint_convex n hmap hc hd hlt⟩
      · rw [getBoundaryPoint_concave n hmap hc hd hlt hnb]
        exact ih _ _ h1 h2 h3 hfc

theorem anchor_known_of_testTriangle_ok {topo : blockMeshTopology} {g : point} {ref : label}
    {tri : labelSet} {r : Option point} (h : testTriangle topo g ref tri = .ok r) :
    (topo.getBoundaryPointCoord ref).isSome = true := by
  rw [testTriangle_eq_testLabels] at h
  cases hl : testLabels tri with
  | error e => simp [hl] at h
  | ok be =>
    simp only [hl] at h
    cases hc : topo.getBoundaryPointCoord ref with
    | none => simp [isOnTriangle, coordOf, hc, bind, Except.bind] at h
    | some c => rfl

/-- C19: in a directory in which every object has a non-empty triangle set with non-empty
triangles and every label of a triangle set is known, and for an object with non-empty
active triangles whose labels are known: when the search is empty the map `dist` is not
empty where its first entry is read, and the triangle set that the re-homing installs is
again non-empty with known labels; so in every step, after any number of re-homings, the
nearest-label lookup does not fail: when the first search completes, the call returns or
the fuel is used up, for every fuel. -/
theorem nearest_label_lookup_safe (topo : blockMeshTopology) (self : boundaryPoint)
    (g : point) (ref : label)
    (hdir : directoryClosed topo)
    (hknown : labelsKnown topo self.trianglesNew_)
    (hne : self.trianglesNew_ ≠ []) :
    (mapBoundaryFeaturePts topo self g ref = .ok [] →
      ∃ first rest, distLoop topo g (extremPoint self.trianglesNew_) [] = .ok (first :: rest) ∧
        (topo.getBoundaryPointCoord first.2).isSome = true ∧
        ∃ nb, topo.getPointTopoPtr first.2 = some nb ∧ nb.getTrianglesLinked ≠ [] ∧
          (∀ tri ∈ nb.getTrianglesLinked, tri ≠ []) ∧
          labelsKnown topo nb.getTrianglesLinked) ∧
    ((∃ m, mapBoundaryFeaturePts topo self g ref = .ok m) →
      ∀ fuel, (∃ r, getBoundaryPoint fuel topo self g ref = .ok r) ∨
        getBoundaryPoint fuel topo self g ref = .error .outOfFuel) := by
  refine ⟨fun hm => dist_nonempty_step hdir hknown hne hm, ?_⟩
  rintro ⟨m, hm⟩ fuel
  have hok := mapBoundaryFeaturePtsLoop_tests_ok hm
  have htri : ∀ tri ∈ self.trianglesNew_, tri ≠ [] := fun tri h => by
    obtain ⟨r, hr⟩ := hok tri h
    exact ne_nil_of_testTriangle_ok hr
  obtain ⟨tri0, htri0⟩ := List.exists_mem_of_ne_nil _ hne
  obtain ⟨r0, hr0⟩ := hok tri0 htri0
  exact getBoundaryPoint_safe topo g hdir fuel self ref hne htri hknown
    (anchor_known_of_testTriangle_ok hr0)

theorem directoryClosed_cornerTopo : directoryClosed cornerTopo := by
  intro l nb h
  have hnb : nb.getTrianglesLinked = [[0, 1, 2]] := by
    simp only [cornerTopo] at h
    split at h
    · simp only [Option.some.injEq] at h
      rw [← h]
      rfl
    · simp at h
  rw [hnb]
  refine ⟨by decide!, by decide!, ?_⟩
  unfold labelsKnown
  decide!

/-- Witness of C19: the one-triangle mesh, the object of vertex 1 and the guess
(-1, -1, 0), for which every step re-homes. -/
theorem nearest_label_lookup_safe_witness :
    directoryClosed cornerTopo ∧ labelsKnown cornerTopo cornerPoint.trianglesNew_ ∧
    cornerPoint.trianglesNew_ ≠ [] ∧
    mapBoundaryFeaturePts cornerTopo cornerPoint ⟨-1, -1, 0⟩ 1 = .ok [] ∧
    ∃ first rest,
      distLoop cornerTopo ⟨-1, -1, 0⟩ (extremPoint cornerPoint.trianglesNew_) [] =
        .ok (first :: rest) ∧
      (cornerTopo.getBoundaryPointCoord first.2).isSome = true ∧
      ∃ nb, cornerTopo.getPointTopoPtr first.2 = some nb ∧ nb.getTrianglesLinked ≠ [] ∧
        (∀ tri ∈ nb.getTrianglesLinked, tri ≠ []) ∧
        labelsKnown cornerTopo nb.getTrianglesLinked :=
  have hk : labelsKnown cornerTopo cornerPoint.trianglesNew_ := by unfold labelsKnown; decide!
  have hm : mapBoundaryFeaturePts cornerTopo cornerPoint ⟨-1, -1, 0⟩ 1 = .ok [] := by decide!
  ⟨directoryClosed_cornerTopo, hk, by decide!, hm,
   (nearest_label_lookup_safe cornerTopo cornerPoint ⟨-1, -1, 0⟩ 1 directoryClosed_cornerTopo hk
     (by decide!)).1 hm⟩

end Foam
